import Mathlib

/-!
Verification of the request-resolution and aggregation layer of the YouTube
MCP server (`server.py`).

The Python source is shallowly embedded: every function of the source that
the claims touch is translated into an executable Lean definition operating
on `List Char` (Python strings are sequences of code points) and on explicit
page streams (the upstream API is modelled as a function from request index
to an `Except`-wrapped page, mirroring the fact that each pagination loop
issues exactly one upstream page request per iteration, threading the opaque
cursor linearly).  `while` loops are embedded with an explicit fuel
parameter: `none` means the loop has not finished within the given fuel, so
statements about non-termination are statements that no fuel suffices.
Python exceptions are `Except` values; the `try/except` tool boundary is the
`Except`-eliminating wrapper that produces the final string payload.
-/

namespace YT

/-! ### Character-list utilities (Python `str` primitives)

Python strings are sequences of code points; we work on `String.data`
directly because the claims require executable, kernel-reducible
definitions.  Each helper mirrors one Python primitive. -/

/-- The character class `[A-Za-z0-9_-]` of the video-id regular expressions. -/
def vidChar (c : Char) : Bool :=
  c.isAlpha || c.isDigit || c == '_' || c == '-'

/-- Predicate `listStarts pre l`: Python `l.startswith(pre)` on code-point lists. -/
def listStarts : List Char → List Char → Bool
  | [], _ => true
  | _ :: _, [] => false
  | a :: as, b :: bs => a == b && listStarts as bs

/-- Predicate `listContains nee hay = true` iff `nee` occurs as a contiguous substring
of `hay`; Python's `nee in hay`. -/
def listContains (nee : List Char) : List Char → Bool
  | [] => nee.isEmpty
  | c :: cs => listStarts nee (c :: cs) || listContains nee cs

/-- Python `hay.endswith(suf)`. -/
def endsWithList (suf l : List Char) : Bool :=
  listStarts suf.reverse l.reverse

/-- Split at the first character satisfying `p`: Python `find` + slicing.
The second component starts with the found character (or is `[]` if no
character satisfies `p`). -/
def splitAtFirst (p : Char → Bool) (l : List Char) : List Char × List Char :=
  (l.takeWhile (fun c => !p c), l.dropWhile (fun c => !p c))

/-- Python `s.strip(c)` for a single strip character: remove every leading
and trailing occurrence of `c`. -/
def pyStrip (c : Char) (l : List Char) : List Char :=
  ((l.dropWhile (· == c)).reverse.dropWhile (· == c)).reverse

/-- The code points after the first occurrence of `sep` (a composite of
Python `split(sep)[1]`: `none` when `sep` does not occur). -/
def afterSubstr (sep : List Char) : List Char → Option (List Char)
  | [] => none
  | c :: cs =>
    if listStarts sep (c :: cs) then some ((c :: cs).drop sep.length)
    else afterSubstr sep cs

/-- The segment after the last `'/'` — Python `path.split("/")[-1]`. -/
def lastSlashSeg (l : List Char) : List Char :=
  (l.reverse.takeWhile (fun c => !(c == '/'))).reverse

/-- Python `s.split(sep)` for a single-character separator (the only form
`parse_qs` needs). -/
def splitListOn (sep : Char) : List Char → List (List Char)
  | [] => [[]]
  | c :: cs =>
    if c == sep then [] :: splitListOn sep cs
    else
      match splitListOn sep cs with
      | [] => [[c]]
      | h :: t => (c :: h) :: t

/-! ### `urllib.parse.urlparse`

Faithful embedding of the CPython parse used by the source: strip a valid
`scheme:` prefix, read a `//netloc` delimited by `/?#`, split off the
fragment at the first `#`, the query at the first `?`, and (for `urlparse`,
as opposed to `urlsplit`) the `;params` of the last path segment. -/

/-- CPython `scheme_chars`. -/
def schemeChar (c : Char) : Bool :=
  c.isAlpha || c.isDigit || c == '+' || c == '-' || c == '.'

/-- A netloc is delimited by the first of `/`, `?` or `#`. -/
def netlocDelim (c : Char) : Bool :=
  c == '/' || c == '?' || c == '#'

/-- The three components of `urlparse` that the source consults. -/
structure UrlParts where
  netloc : List Char
  path : List Char
  query : List Char
deriving Repr, DecidableEq

/-- CPython `_splitparams`: drop a `;params` tail from the last path
segment. -/
def pathNoParams (l : List Char) : List Char :=
  if l.contains '/' then
    let seg := lastSlashSeg l
    l.take (l.length - seg.length) ++ seg.takeWhile (fun c => !(c == ';'))
  else l.takeWhile (fun c => !(c == ';'))

/-- CPython scheme stripping: when the text before the first `:` is a valid
nonempty scheme (letter first, scheme characters throughout), drop it. -/
def stripScheme (l : List Char) : List Char :=
  match splitAtFirst (fun c => c == ':') l with
  | (a :: more, _ :: rest) =>
    if a.isAlpha && (a :: more).all schemeChar then rest else l
  | _ => l

/-- CPython netloc split: when the (scheme-stripped) URL starts `//`, the
netloc runs to the first of `/?#`. -/
def splitNetloc (l : List Char) : List Char × List Char :=
  if listStarts "//".data l then splitAtFirst netlocDelim (l.drop 2)
  else ([], l)

/-- CPython `urlparse` on code points (scheme and fragment are computed and
discarded, as the source never reads them): strip the scheme, split the
netloc, cut the fragment at the first `#`, the query at the first `?`, the
`;params` from the last path segment. -/
def urlparseList (l : List Char) : UrlParts :=
  ⟨(splitNetloc (stripScheme l)).1,
   pathNoParams (splitAtFirst (fun c => c == '?')
     ((splitAtFirst (fun c => c == '#') (splitNetloc (stripScheme l)).2).1)).1,
   match (splitAtFirst (fun c => c == '?')
     ((splitAtFirst (fun c => c == '#') (splitNetloc (stripScheme l)).2).1)).2 with
   | _ :: t => t
   | [] => []⟩

/-! ### `urllib.parse.parse_qs`

`parse_qs(q)["v"][0]` with CPython defaults: split the query on `&`, skip
empty fields, split each field at the first `=` (fields without `=` are
skipped), skip blank values, unquote names and values (`+` to space, then
`%hh` percent-decoding; we decode each escape as a single code point, the
single-byte case — no theorem exercises multi-byte escapes). -/

/-- Hexadecimal digit value. -/
def hexDigit (c : Char) : Option Nat :=
  if c.isDigit then some (c.toNat - 48)
  else if 'a' ≤ c && c ≤ 'f' then some (c.toNat - 87)
  else if 'A' ≤ c && c ≤ 'F' then some (c.toNat - 55)
  else none

/-- Percent-decoding (single-byte escapes). -/
def pctDecode : List Char → List Char
  | c :: a :: b :: rest =>
    if c == '%' then
      match hexDigit a, hexDigit b with
      | some x, some y => Char.ofNat (16 * x + y) :: pctDecode rest
      | _, _ => c :: pctDecode (a :: b :: rest)
    else c :: pctDecode (a :: b :: rest)
  | c :: rest => c :: pctDecode rest
  | [] => []

/-- Python `unquote_plus`: `+` to space, then percent-decode. -/
def unquotePlus (l : List Char) : List Char :=
  pctDecode (l.map (fun c => if c == '+' then ' ' else c))

/-- CPython `parse_qs(query)[name][0]` (first value bound to `name`), `none` when
the key is absent. -/
def parseQsFirst (query name : List Char) : Option (List Char) :=
  let pairs := (splitListOn '&' query).filterMap fun field =>
    if field.isEmpty then none
    else
      match splitAtFirst (fun c => c == '=') field with
      | (n, _ :: v) => if v.isEmpty then none else some (unquotePlus n, unquotePlus v)
      | (_, []) => none
  ((pairs.find? fun p => p.1 == name).map (·.2))

/-! ### The two regular-expression searches of `_extract_video_id` -/

/-- Search `re.search(r"([A-Za-z0-9_-]{11})", s)`: the leftmost window of 11
consecutive characters of the class. -/
def findRun11 : List Char → Option (List Char)
  | [] => none
  | c :: cs =>
    if ((c :: cs).take 11).length == 11 && ((c :: cs).take 11).all vidChar then
      some ((c :: cs).take 11)
    else findRun11 cs

/-- Search `re.search(r"/embed/([A-Za-z0-9_-]{6,})", path)`: at the leftmost
position where the literal `/embed/` is followed by at least 6 class
characters, capture the maximal run. -/
def embedSearch : List Char → Option (List Char)
  | [] => none
  | c :: cs =>
    if listStarts "/embed/".data (c :: cs) then
      let run := ((c :: cs).drop 7).takeWhile vidChar
      if 6 ≤ run.length then some run else embedSearch cs
    else embedSearch cs

/-! ### Identifier resolvers (`_extract_video_id`, `_extract_channel_id`) -/

/-- Embedding of `_extract_video_id` (source lines 81–99).  The `try/except` never fires:
every embedded operation is total, so the except-branch `""` is represented
by the final no-match case. -/
def extract_video_id (videoUrl : String) : String :=
  let u := urlparseList videoUrl.data
  if endsWithList "youtu.be".data u.netloc then (pyStrip '/' u.path).asString
  else
    let ytMatch : Option (List Char) :=
      if listContains "youtube.com".data u.netloc then
        match parseQsFirst u.query "v".data with
        | some v => some v
        | none => embedSearch u.path
      else none
    match ytMatch with
    | some v => v.asString
    | none =>
      match findRun11 videoUrl.data with
      | some run => run.asString
      | none => ""

/-- Embedding of `_extract_channel_id` (source lines 101–128).  Python falls off the end
of the `if "youtube.com" in channel_input` branch when none of the three
path patterns matches, implicitly returning `None`; the embedding returns
`none` there.  The kind tags `"id"`/`"username"` are the source's own. -/
def extract_channel_id (channelInput : String) : Option (String × String) :=
  if listContains "youtube.com".data channelInput.data then
    let u := urlparseList channelInput.data
    if listContains "/channel/".data u.path then
      some ("id", (((afterSubstr "/channel/".data u.path).getD []).takeWhile
        (fun c => !(c == '/'))).asString)
    else if listContains "/@".data u.path then
      some ("username", (((afterSubstr "/@".data u.path).getD []).takeWhile
        (fun c => !(c == '/'))).asString)
    else if listContains "/c/".data u.path || listContains "/user/".data u.path then
      some ("username", (lastSlashSeg u.path).asString)
    else none
  else if listStarts "@".data channelInput.data then
    some ("username", (channelInput.data.drop 1).asString)
  else some ("id", channelInput)

/-! ### Record normalizers (`_pack_comment`, `_pack_video`, `_pack_artist`)

Raw upstream JSON items are modelled as structures holding exactly the
fields the packers read, with `Option` for fields accessed through `.get`
(Python's missing-key default).  Numeric counters arrive from the upstream
API as decimal strings and pass through `int(...)`; they are modelled as the
parsed naturals. -/

/-- Python `a or b or ""` on optional strings (`None` and `""` are falsy). -/
def orStr (a : Option String) (d : String) : String :=
  match a with
  | some s => if s == "" then d else s
  | none => d

/-- Python `s[:200]` (a 200-code-point prefix). -/
def pyTake200 (s : String) : String :=
  ⟨s.data.take 200⟩

structure RawComment where
  id : Option String
  authorDisplayName : Option String
  publishedAt : Option String
  likeCount : Option Nat
  textOriginal : Option String
  textDisplay : Option String
deriving Repr, DecidableEq

structure CommentRecord where
  id : Option String
  parentId : Option String
  author : Option String
  publishedAt : Option String
  likeCount : Nat
  text : String
deriving Repr, DecidableEq

/-- Embedding of `_pack_comment` (source lines 141–151). -/
def pack_comment (item : RawComment) (parent_id : Option String) : CommentRecord :=
  { id := item.id
    parentId := parent_id
    author := item.authorDisplayName
    publishedAt := item.publishedAt
    likeCount := item.likeCount.getD 0
    text := orStr item.textOriginal (orStr item.textDisplay "") }

structure RawVideo where
  id : Option String
  title : Option String
  channelTitle : Option String
  channelId : Option String
  publishedAt : Option String
  description : Option String
  thumbnails : Option String
  viewCount : Option Nat
  likeCount : Option Nat
  commentCount : Option Nat
  duration : Option String
  tags : Option (List String)
deriving Repr, DecidableEq

structure VideoRecord where
  videoId : Option String
  title : Option String
  channelTitle : Option String
  channelId : Option String
  publishedAt : Option String
  description : String
  thumbnails : String
  viewCount : Nat
  likeCount : Nat
  commentCount : Nat
  duration : Option String
  tags : List String
deriving Repr, DecidableEq

/-- Embedding of `_pack_video` (source lines 153–172).  `thumbnails` is an opaque JSON
map, modelled as its serialized form. -/
def pack_video (item : RawVideo) : VideoRecord :=
  { videoId := item.id
    title := item.title
    channelTitle := item.channelTitle
    channelId := item.channelId
    publishedAt := item.publishedAt
    description := pyTake200 (item.description.getD "")
    thumbnails := item.thumbnails.getD "\x7b\x7d"
    viewCount := item.viewCount.getD 0
    likeCount := item.likeCount.getD 0
    commentCount := item.commentCount.getD 0
    duration := item.duration
    tags := item.tags.getD [] }

structure RawArtist where
  id : Option String
  title : Option String
  description : Option String
  thumbnails : Option String
  subscriberCount : Option Nat
  videoCount : Option Nat
  viewCount : Option Nat
  country : Option String
  publishedAt : Option String
deriving Repr, DecidableEq

structure ArtistRecord where
  channelId : Option String
  title : Option String
  description : String
  thumbnails : String
  subscriberCount : Nat
  videoCount : Nat
  viewCount : Nat
  country : Option String
  publishedAt : Option String
deriving Repr, DecidableEq

/-- Embedding of `_pack_artist` (source lines 174–189). -/
def pack_artist (item : RawArtist) : ArtistRecord :=
  { channelId := item.id
    title := item.title
    description := pyTake200 (item.description.getD "")
    thumbnails := item.thumbnails.getD "\x7b\x7d"
    subscriberCount := item.subscriberCount.getD 0
    videoCount := item.videoCount.getD 0
    viewCount := item.viewCount.getD 0
    country := item.country
    publishedAt := item.publishedAt }

/-- Raw playlist item as read by the two playlist packers (`snippet` fields
are accessed with `[...]`, hence required). -/
structure RawPlaylist where
  id : String
  title : String
  description : String
  channelTitle : String
  channelId : String
  thumbnails : String
  itemCount : Nat
  publishedAt : String
  privacyStatus : String
deriving Repr, DecidableEq

structure PlaylistRecord where
  playlistId : String
  title : String
  description : String
  channelTitle : String
  channelId : String
  thumbnails : String
  videoCount : Nat
  publishedAt : String
  privacyStatus : Option String
  url : Option String
deriving Repr, DecidableEq

/-- The playlist dict built inline by `get_trending_playlists`
(source lines 532–541): truncated description, no privacy status, no URL. -/
def pack_playlist_trending (p : RawPlaylist) : PlaylistRecord :=
  { playlistId := p.id
    title := p.title
    description := pyTake200 p.description
    channelTitle := p.channelTitle
    channelId := p.channelId
    thumbnails := p.thumbnails
    videoCount := p.itemCount
    publishedAt := p.publishedAt
    privacyStatus := none
    url := none }

/-- The playlist dict built inline by `search_playlists`
(source lines 748–759): truncated description, privacy status and a
constructed canonical URL. -/
def pack_playlist_search (p : RawPlaylist) : PlaylistRecord :=
  { playlistId := p.id
    title := p.title
    description := pyTake200 p.description
    channelTitle := p.channelTitle
    channelId := p.channelId
    thumbnails := p.thumbnails
    videoCount := p.itemCount
    publishedAt := p.publishedAt
    privacyStatus := some p.privacyStatus
    url := some ("https://www.youtube.com/playlist?list=" ++ p.id) }

/-- The single-playlist detail record of `get_playlist_details`
(source lines 688–700): the description passes through untruncated. -/
structure PlaylistDetailResult where
  playlistId : String
  title : String
  description : String
  channelTitle : String
  channelId : String
  publishedAt : String
  privacyStatus : String
  thumbnails : String
  videoCount : Nat
  videos : List VideoRecord
  totalVideosReturned : Nat
deriving Repr, DecidableEq

/-- Packing of the `result` dict of `get_playlist_details`
(source lines 688–700). -/
def pack_playlist_details (playlistId : String) (info : RawPlaylist)
    (videos : List VideoRecord) : PlaylistDetailResult :=
  { playlistId := playlistId
    title := info.title
    description := info.description
    channelTitle := info.channelTitle
    channelId := info.channelId
    publishedAt := info.publishedAt
    privacyStatus := info.privacyStatus
    thumbnails := info.thumbnails
    videoCount := info.itemCount
    videos := videos
    totalVideosReturned := videos.length }

/-! ### Python string comparison and the stable descending sort

CPython compares strings lexicographically by code point; `list.sort` with
`reverse=True` is the stable descending sort by the key (ties keep their
original relative order).  The unique function with those properties is the
insertion sort below, which places each element before the first
already-placed element whose key is `≤` its own. -/

/-- Python `s < t` on code-point lists. -/
def strLtB : List Char → List Char → Bool
  | [], [] => false
  | [], _ :: _ => true
  | _ :: _, [] => false
  | a :: as, b :: bs =>
    if a.toNat < b.toNat then true
    else if b.toNat < a.toNat then false
    else strLtB as bs

/-- Python `s <= t` on strings. -/
def pyStrLe (s t : String) : Bool :=
  !(strLtB t.data s.data)

/-- Insert into a descending-sorted list, before the first element whose key
is `≤` the new key (so equal keys keep the earlier element first). -/
def insertDescBy (le : β → β → Bool) (key : α → β) (x : α) : List α → List α
  | [] => [x]
  | y :: ys =>
    if le (key y) (key x) then x :: y :: ys
    else y :: insertDescBy le key x ys

/-- Stable descending sort by key: `list.sort(key=key, reverse=True)`. -/
def sortDescBy (le : β → β → Bool) (key : α → β) : List α → List α
  | [] => []
  | x :: xs => insertDescBy le key x (sortDescBy le key xs)

/-- Boolean `≤` on `Nat` keys. -/
def natLe (a b : Nat) : Bool := a ≤ b

/-- The post-accumulation sort of `get_channel_videos`
(source lines 334–340): an `if/elif` chain keyed on `order`; any other
`order` value leaves the upstream order untouched. -/
def sortVideos (order : String) (videos : List VideoRecord) : List VideoRecord :=
  if order == "viewCount" then sortDescBy natLe (fun v => v.viewCount) videos
  else if order == "date" then
    sortDescBy pyStrLe (fun v => (v.publishedAt.getD "")) videos
  else if order == "rating" then sortDescBy natLe (fun v => v.likeCount) videos
  else videos

/-! ### Credential resolution (`_get_yt_api_key`, `__main__`)

Process-wide state is the cached key; `argv` and the environment variable
are explicit parameters.  `os.getenv` yields `Option String`, and Python's
`if env_key:` treats the empty string as absent. -/

/-- Outcome of `_get_yt_api_key` (source lines 43–79): the resolved key and
the new cache, or the raised message. -/
def get_yt_api_key (cached : Option String) (argv : List String)
    (env : Option String) : Except String (String × Option String) :=
  match cached with
  | some k => .ok (k, some k)
  | none =>
    if argv.contains "--yt-key" then
      let keyIndex := argv.indexOf "--yt-key" + 1
      if h : keyIndex < argv.length then
        let k := argv.get ⟨keyIndex, h⟩
        .ok (k, some k)
      else .error "--yt-key argument provided but no key value followed it"
    else
      match env with
      | some k =>
        if k == "" then
          .error "YouTube API key is required. Provide via '--yt-key <KEY>' or set YOUTUBE_API_KEY env var."
        else .ok (k, some k)
      | none =>
        .error "YouTube API key is required. Provide via '--yt-key <KEY>' or set YOUTUBE_API_KEY env var."

/-- What the `__main__` block does before serving (source lines 777–797). -/
inductive StartupResult
  | exited (code : Nat)
  | serving (key : String)
deriving Repr, DecidableEq

/-- Process startup: resolve the key with an empty cache; on failure
`sys.exit(1)` before `mcp.run`, else start serving. -/
def mainStartup (argv : List String) (env : Option String) : StartupResult :=
  match get_yt_api_key none argv env with
  | .error _ => .exited 1
  | .ok (k, _) => .serving k

/-- Playlist-id extraction inlined in `get_playlist_artists` and
`get_playlist_details` (source lines 572–577, 636–641): if the input
contains `youtube.com`, replace it by the `list` query parameter when that
parameter parses. -/
def extract_playlist_id (playlistUrl : String) : String :=
  if listContains "youtube.com".data playlistUrl.data then
    match parseQsFirst (urlparseList playlistUrl.data).query "list".data with
    | some v => v.asString
    | none => playlistUrl
  else playlistUrl

/-! ### JSON rendering (`json.dumps` with default separators)

`json.dumps(obj, ensure_ascii=False)` with the default separators
`", "` / `": "`, dict keys in insertion order.  Only `"`, `\` and control
characters are escaped. -/

/-- Lowercase hex digit. -/
def hexCh (n : Nat) : Char :=
  if n < 10 then Char.ofNat (48 + n % 10) else Char.ofNat (87 + n % 16)

/-- JSON escaping of one character (`ensure_ascii=False`). -/
def jsonEscChar (c : Char) : List Char :=
  if c == '"' then ['\\', '"']
  else if c == '\\' then ['\\', '\\']
  else if c == '\n' then ['\\', 'n']
  else if c == '\t' then ['\\', 't']
  else if c == '\r' then ['\\', 'r']
  else if c.toNat == 8 then ['\\', 'b']
  else if c.toNat == 12 then ['\\', 'f']
  else if c.toNat < 32 then
    ['\\', 'u', '0', '0', hexCh (c.toNat / 16), hexCh (c.toNat % 16)]
  else [c]

/-- JSON string literal. -/
def jsonStr (s : String) : String :=
  ⟨'"' :: (s.data.map jsonEscChar).flatten ++ ['"']⟩

/-- JSON rendering of an optional string (`null` for `None`). -/
def jsonOptStr (s : Option String) : String :=
  match s with
  | some v => jsonStr v
  | none => "null"

/-- Comma-space-separated join. -/
def joinSep (sep : String) : List String → String
  | [] => ""
  | [x] => x
  | x :: y :: t => x ++ sep ++ joinSep sep (y :: t)

/-- JSON array. -/
def jsonArr (f : α → String) (l : List α) : String :=
  "[" ++ joinSep ", " (l.map f) ++ "]"

/-- JSON object for a `CommentRecord` (key order as built by
`_pack_comment`). -/
def renderComment (c : CommentRecord) : String :=
  "\x7b\"id\": " ++ jsonOptStr c.id ++
  ", \"parentId\": " ++ jsonOptStr c.parentId ++
  ", \"author\": " ++ jsonOptStr c.author ++
  ", \"publishedAt\": " ++ jsonOptStr c.publishedAt ++
  ", \"likeCount\": " ++ toString c.likeCount ++
  ", \"text\": " ++ jsonStr c.text ++ "\x7d"

/-- JSON object for a `VideoRecord` (key order as built by `_pack_video`;
`thumbnails` holds its serialized form). -/
def renderVideo (v : VideoRecord) : String :=
  "\x7b\"videoId\": " ++ jsonOptStr v.videoId ++
  ", \"title\": " ++ jsonOptStr v.title ++
  ", \"channelTitle\": " ++ jsonOptStr v.channelTitle ++
  ", \"channelId\": " ++ jsonOptStr v.channelId ++
  ", \"publishedAt\": " ++ jsonOptStr v.publishedAt ++
  ", \"description\": " ++ jsonStr v.description ++
  ", \"thumbnails\": " ++ v.thumbnails ++
  ", \"viewCount\": " ++ toString v.viewCount ++
  ", \"likeCount\": " ++ toString v.likeCount ++
  ", \"commentCount\": " ++ toString v.commentCount ++
  ", \"duration\": " ++ jsonOptStr v.duration ++
  ", \"tags\": " ++ jsonArr jsonStr v.tags ++ "\x7d"

/-! ### `fetch_comments` (source lines 191–252)

The upstream `commentThreads` endpoint is a function from request index to a
page: each loop iteration issues exactly one request, threading the opaque
cursor, so request index and iteration coincide.  The page size parameter is
a fixed `"maxResults": 100` in the source.  An upstream failure is an
`Except.error` carrying the string Python would render as
`f"{type(e).__name__}: {e}"`. -/

/-- One item of `commentThreads`: an optional top-level comment (Python
tests `if top:` on a possibly-empty dict) and its replies. -/
structure Thread where
  top : Option RawComment
  replies : List RawComment
deriving Repr, DecidableEq

/-- One `commentThreads` page. -/
structure CommentsPage where
  threads : List Thread
  nextPageToken : Option String
deriving Repr, DecidableEq

/-- Flattening of one thread (source lines 230–235): the top-level comment,
then every reply with `parentId` set to the top comment's id. -/
def flattenThread (t : Thread) : List CommentRecord :=
  (match t.top with
   | some top => [pack_comment top none]
   | none => []) ++
  t.replies.map fun rep =>
    pack_comment rep (match t.top with | some top => top.id | none => none)

/-- The `for th in data.get("items", [])` loop with its trailing
`if len(items) >= max: break` (source lines 230–237): the cap check runs
only after a whole thread — top comment and all replies — was appended. -/
def addThreads (maxC : Nat) (acc : List CommentRecord) : List Thread → List CommentRecord
  | [] => acc
  | t :: ts =>
    let acc2 := acc ++ flattenThread t
    if maxC ≤ acc2.length then acc2 else addThreads maxC acc2 ts

/-- The `while len(items) < max` pagination loop of `fetch_comments`
(source lines 217–241), with fuel; the `Nat` in the result counts upstream
page requests. -/
def commentsLoop (pages : Nat → Except String CommentsPage) (maxC : Nat) :
    Nat → Nat → List CommentRecord → Option (Except String (List CommentRecord × Nat))
  | 0, _, _ => none
  | fuel + 1, k, acc =>
    if acc.length < maxC then
      match pages k with
      | .error e => some (.error e)
      | .ok pg =>
        let acc2 := addThreads maxC acc pg.threads
        match pg.nextPageToken with
        | none => some (.ok (acc2, k + 1))
        | some _ => commentsLoop pages maxC fuel (k + 1) acc2
    else some (.ok (acc, k))

/-- Success payload of `fetch_comments` (source lines 244–249). -/
def renderCommentsResult (videoId order : String) (items : List CommentRecord) : String :=
  "\x7b\"video_id\": " ++ jsonStr videoId ++
  ", \"order\": " ++ jsonStr order ++
  ", \"total_returned\": " ++ toString items.length ++
  ", \"items\": " ++ jsonArr renderComment items ++ "\x7d"

/-- The whole `fetch_comments` tool: key check, id parse, order coercion,
pagination inside `try`, and boundary rendering.  `none` means the loop did
not finish within the fuel (the Python call has not returned). -/
def fetch_comments (cached : Option String) (argv : List String)
    (env : Option String) (videoUrl orderArg : String) (maxC : Nat)
    (pages : Nat → Except String CommentsPage) (fuel : Nat) : Option String :=
  match get_yt_api_key cached argv env with
  | .error e => some ("ERROR: " ++ e)
  | .ok _ =>
    let vid := extract_video_id videoUrl
    if vid == "" then some "ERROR: Cannot parse video ID from URL."
    else
      let ord := if orderArg == "relevance" || orderArg == "time" then orderArg else "relevance"
      match commentsLoop pages maxC fuel 0 [] with
      | none => none
      | some (.error e) => some ("ERROR: " ++ e)
      | some (.ok (items, _)) => some (renderCommentsResult vid ord items)

/-! ### The shared uploads/playlist-items pagination loop

The page loops of `get_channel_videos` (source lines 304–332) and
`get_playlist_details` (source lines 656–685) are syntactically identical:
request up to `min(50, max - len(videos))` playlist items with the current
cursor, batch the returned video ids into a details call when nonempty,
append the packed videos, and stop when the cursor is absent or the cap is
reached.  `pages` receives the request index and the `maxResults` actually
requested; `det` receives the request index and the id batch. -/

/-- One `playlistItems` page: the video ids of its items and the cursor. -/
structure PlaylistItemsPage where
  videoIds : List String
  nextPageToken : Option String
deriving Repr, DecidableEq

/-- The shared pagination loop, with fuel; the `Nat` in the result counts
upstream `playlistItems` page requests. -/
def uploadsLoop (pages : Nat → Nat → Except String PlaylistItemsPage)
    (det : Nat → List String → Except String (List RawVideo)) (maxV : Nat) :
    Nat → Nat → List VideoRecord → Option (Except String (List VideoRecord × Nat))
  | 0, _, _ => none
  | fuel + 1, k, acc =>
    if acc.length < maxV then
      match pages k (min 50 (maxV - acc.length)) with
      | .error e => some (.error e)
      | .ok pg =>
        let step : Except String (List VideoRecord) :=
          if pg.videoIds.isEmpty then .ok acc
          else
            match det k pg.videoIds with
            | .error e => .error e
            | .ok raws => .ok (acc ++ raws.map pack_video)
        match step with
        | .error e => some (.error e)
        | .ok acc2 =>
          match pg.nextPageToken with
          | none => some (.ok (acc2, k + 1))
          | some _ =>
            if maxV ≤ acc2.length then some (.ok (acc2, k + 1))
            else uploadsLoop pages det maxV fuel (k + 1) acc2
    else some (.ok (acc, k))

/-! ### `get_channel_videos` (source lines 254–357) -/

/-- The fields of `channel_data["items"][0]` that the tool reads.  The
subscriber and video counters arrive as decimal strings when present
(`statistics.get(...)` with defaults `"Hidden"` and `0`). -/
structure ChanInfo where
  uploads : String
  title : String
  description : String
  subscriberCount : Option String
  videoCountStat : Option String
deriving Repr, DecidableEq

/-- Success payload of `get_channel_videos` (source lines 344–353):
`total_returned` is the full accumulated length, the `videos` field is the
sorted list truncated to the cap. -/
def renderChannelResult (channelId : String) (info : ChanInfo) (order : String)
    (sortedVideos : List VideoRecord) (maxV : Nat) : String :=
  "\x7b\"channelId\": " ++ jsonStr channelId ++
  ", \"channelTitle\": " ++ jsonStr info.title ++
  ", \"channelDescription\": " ++ jsonStr (pyTake200 info.description) ++
  ", \"subscriberCount\": " ++
    (match info.subscriberCount with | some s => jsonStr s | none => jsonStr "Hidden") ++
  ", \"videoCount\": " ++
    (match info.videoCountStat with | some s => jsonStr s | none => "0") ++
  ", \"order\": " ++ jsonStr order ++
  ", \"total_returned\": " ++ toString sortedVideos.length ++
  ", \"videos\": " ++ jsonArr renderVideo (sortedVideos.take maxV) ++ "\x7d"

/-- The metadata-lookup and pagination stage of `get_channel_videos`
(source lines 290–353), entered once the channel id is resolved. -/
def channel_videos_with_id (channelId orderArg : String) (maxV : Nat)
    (metaLookup : String → Except String (Option ChanInfo))
    (pages : Nat → Nat → Except String PlaylistItemsPage)
    (det : Nat → List String → Except String (List RawVideo))
    (fuel : Nat) : Option String :=
  match metaLookup channelId with
  | .error e => some ("ERROR: " ++ e)
  | .ok none => some "ERROR: Channel not found"
  | .ok (some info) =>
    match uploadsLoop pages det maxV fuel 0 [] with
    | none => none
    | some (.error e) => some ("ERROR: " ++ e)
    | some (.ok (vids, _)) =>
      some (renderChannelResult channelId info orderArg
        (sortVideos orderArg vids) maxV)

/-- The whole `get_channel_videos` tool.  `handleLookup` is the
`channels?forHandle=` call (returning the item ids), `metaLookup` the
`channels?id=` call (`none` for an empty item list).  A `none`
channel-reference classification makes the tuple unpacking raise
`TypeError` inside the `try`, caught at the boundary. -/
def get_channel_videos (cached : Option String) (argv : List String)
    (env : Option String) (channelInput orderArg : String) (maxV : Nat)
    (handleLookup : String → Except String (List String))
    (metaLookup : String → Except String (Option ChanInfo))
    (pages : Nat → Nat → Except String PlaylistItemsPage)
    (det : Nat → List String → Except String (List RawVideo))
    (fuel : Nat) : Option String :=
  match get_yt_api_key cached argv env with
  | .error e => some ("ERROR: " ++ e)
  | .ok _ =>
    match extract_channel_id channelInput with
    | none => some "ERROR: TypeError: cannot unpack non-iterable NoneType object"
    | some (idType, ident) =>
      if idType == "username" then
        match handleLookup ident with
        | .error e => some ("ERROR: " ++ e)
        | .ok [] => some ("ERROR: Channel not found for username: " ++ ident)
        | .ok (cid :: _) =>
          channel_videos_with_id cid orderArg maxV metaLookup pages det fuel
      else channel_videos_with_id ident orderArg maxV metaLookup pages det fuel

/-! ### `get_playlist_details` (source lines 619–708) -/

/-- Success payload of `get_playlist_details` (lines 688–704). -/
def renderPlaylistDetails (r : PlaylistDetailResult) : String :=
  "\x7b\"playlistId\": " ++ jsonStr r.playlistId ++
  ", \"title\": " ++ jsonStr r.title ++
  ", \"description\": " ++ jsonStr r.description ++
  ", \"channelTitle\": " ++ jsonStr r.channelTitle ++
  ", \"channelId\": " ++ jsonStr r.channelId ++
  ", \"publishedAt\": " ++ jsonStr r.publishedAt ++
  ", \"privacyStatus\": " ++ jsonStr r.privacyStatus ++
  ", \"thumbnails\": " ++ r.thumbnails ++
  ", \"videoCount\": " ++ toString r.videoCount ++
  ", \"videos\": " ++ jsonArr renderVideo r.videos ++
  ", \"total_videos_returned\": " ++ toString r.totalVideosReturned ++ "\x7d"

/-- The whole `get_playlist_details` tool.  `plMeta` is the `playlists?id=`
metadata call (`none` for an empty item list); the pagination loop is the
shared `uploadsLoop` (the source duplicates the loop verbatim). -/
def get_playlist_details (cached : Option String) (argv : List String)
    (env : Option String) (playlistUrl : String) (maxVideos : Nat)
    (plMeta : String → Except String (Option RawPlaylist))
    (pages : Nat → Nat → Except String PlaylistItemsPage)
    (det : Nat → List String → Except String (List RawVideo))
    (fuel : Nat) : Option String :=
  match get_yt_api_key cached argv env with
  | .error e => some ("ERROR: " ++ e)
  | .ok _ =>
    let playlistId := extract_playlist_id playlistUrl
    match plMeta playlistId with
    | .error e => some ("ERROR: " ++ e)
    | .ok none => some "ERROR: Playlist not found"
    | .ok (some info) =>
      match uploadsLoop pages det maxVideos fuel 0 [] with
      | none => none
      | some (.error e) => some ("ERROR: " ++ e)
      | some (.ok (vids, _)) =>
        some (renderPlaylistDetails (pack_playlist_details playlistId info vids))

/-! ### `search_videos` (source lines 359–410) -/

/-- The exact `json.dumps` output of the empty-search branch
(source line 389; `ensure_ascii` left at its default there). -/
def noVideosFoundJson : String :=
  "\x7b\"error\": \"No videos found\", \"total_returned\": 0, \"videos\": []\x7d"

/-- Success payload of `search_videos` (source lines 401–406). -/
def renderSearchResult (query order : String) (videos : List VideoRecord) : String :=
  "\x7b\"query\": " ++ jsonStr query ++
  ", \"order\": " ++ jsonStr order ++
  ", \"total_returned\": " ++ toString videos.length ++
  ", \"videos\": " ++ jsonArr renderVideo videos ++ "\x7d"

/-- The whole `search_videos` tool: `searchCall` yields the extracted
`item["id"]["videoId"]` list of the initial search, `detailsCall` the batch
details lookup.  No pagination, hence no fuel. -/
def search_videos (cached : Option String) (argv : List String)
    (env : Option String) (query orderArg : String)
    (searchCall : Except String (List String))
    (detailsCall : List String → Except String (List RawVideo)) : String :=
  match get_yt_api_key cached argv env with
  | .error e => "ERROR: " ++ e
  | .ok _ =>
    match searchCall with
    | .error e => "ERROR: " ++ e
    | .ok ids =>
      if ids.isEmpty then noVideosFoundJson
      else
        match detailsCall ids with
        | .error e => "ERROR: " ++ e
        | .ok raws => renderSearchResult query orderArg (raws.map pack_video)

/-! ### Basic lemmas about the string primitives -/

/-- Membership test: `strStarts p s` is Python `s.startswith(p)`. -/
def strStarts (p s : String) : Bool :=
  listStarts p.data s.data

theorem listStarts_append_self (pre rest : List Char) :
    listStarts pre (pre ++ rest) = true := by
  induction pre with
  | nil => rfl
  | cons a as ih => simp [listStarts, ih]

theorem strStarts_append_self (p rest : String) :
    strStarts p (p ++ rest) = true := by
  have hd : (p ++ rest).data = p.data ++ rest.data := by
    cases p; cases rest; rfl
  simp [strStarts, hd, listStarts_append_self]

theorem listStarts_false_of_ne_head (a b : Char) (as bs : List Char) (h : a ≠ b) :
    listStarts (a :: as) (b :: bs) = false := by
  simp [listStarts, h]

/-- A success payload starting with a `{` is never `"ERROR: "`-prefixed. -/
theorem strStarts_error_false_of_brace (s : String)
    (h : ∃ t, s.data = '\x7b' :: t) : strStarts "ERROR: " s = false := by
  obtain ⟨t, ht⟩ := h
  simp [strStarts, ht, listStarts]

theorem takeWhile_all_true {p : Char → Bool} {l : List Char}
    (h : ∀ c ∈ l, p c = true) : l.takeWhile p = l := by
  rw [List.takeWhile_eq_self_iff]
  exact h

theorem dropWhile_all_false {p : Char → Bool} {l : List Char}
    (h : ∀ c ∈ l, p c = false) : l.dropWhile p = l := by
  cases l with
  | nil => rfl
  | cons a as =>
    have ha := h a (by simp)
    simp [List.dropWhile, ha]

theorem takeWhile_append_of_all {p : Char → Bool} :
    ∀ {a : List Char} (b : List Char), (∀ c ∈ a, p c = true) →
      (a ++ b).takeWhile p = a ++ b.takeWhile p := by
  intro a
  induction a with
  | nil => intro b _; rfl
  | cons x xs ih =>
    intro b h
    have hx := h x (by simp)
    simp only [List.cons_append, List.takeWhile_cons, hx, if_true]
    rw [ih b fun c hc => h c (by simp [hc])]

theorem dropWhile_append_of_all {p : Char → Bool} :
    ∀ {a : List Char} (b : List Char), (∀ c ∈ a, p c = true) →
      (a ++ b).dropWhile p = b.dropWhile p := by
  intro a
  induction a with
  | nil => intro b _; rfl
  | cons x xs ih =>
    intro b h
    have hx := h x (by simp)
    simp only [List.cons_append, List.dropWhile_cons, hx, if_true]
    exact ih b fun c hc => h c (by simp [hc])

theorem splitAtFirst_append_none {p : Char → Bool} {a : List Char} (b : List Char)
    (h : ∀ c ∈ a, p c = false) :
    splitAtFirst p (a ++ b) =
      (a ++ b.takeWhile (fun c => !p c), b.dropWhile (fun c => !p c)) := by
  unfold splitAtFirst
  rw [takeWhile_append_of_all b fun c hc => by simp [h c hc],
    dropWhile_append_of_all b fun c hc => by simp [h c hc]]

/-- Characters of the video-id class are never one of the URL
metacharacters. -/
theorem vidChar_ne (c d : Char) (hc : vidChar c = true) (hd : vidChar d = false) :
    (c == d) = false := by
  by_cases h : c = d
  · subst h; rw [hc] at hd; cases hd
  · simp [h]

/-- Identity of `pathNoParams` on semicolon-free paths. -/
theorem pathNoParams_id {l : List Char} (h : ∀ c ∈ l, (c == ';') = false) :
    pathNoParams l = l := by
  unfold pathNoParams
  by_cases hsl : l.contains '/'
  · simp only [hsl, if_true]
    have hsub : ∀ c ∈ lastSlashSeg l, c ∈ l := by
      intro c hc
      unfold lastSlashSeg at hc
      rw [List.mem_reverse] at hc
      have := (l.reverse.takeWhile_sublist _).mem hc
      rwa [List.mem_reverse] at this
    have hseg : (lastSlashSeg l).takeWhile (fun c => !(c == ';')) = lastSlashSeg l :=
      takeWhile_all_true fun c hc => by simp [h c (hsub c hc)]
    rw [hseg]
    set sg := lastSlashSeg l with hsg
    have hdecomp : l = (l.reverse.dropWhile (fun c => !(c == '/'))).reverse ++ sg := by
      rw [hsg]
      unfold lastSlashSeg
      rw [← List.reverse_append, List.takeWhile_append_dropWhile, List.reverse_reverse]
    set t := (l.reverse.dropWhile (fun c => !(c == '/'))).reverse with ht
    rw [hdecomp, List.length_append]
    have : t.length + sg.length - sg.length = t.length := by omega
    rw [this, List.take_left]
  · simp only [hsl, if_false]
    exact takeWhile_all_true fun c hc => by simp [h c hc]

/-! ### The stable descending sort

`insertDescBy` splits the target list at the insertion point; permutation,
sortedness and stability (the filtered sublist at any key value is
unchanged) all follow from that decomposition.  CPython's
`list.sort(key=k, reverse=True)` is the stable descending sort by `k`,
which these three properties determine uniquely. -/

theorem insertDescBy_decomp (le : β → β → Bool) (key : α → β) (x : α)
    (M : List α) :
    ∃ l1 l2, M = l1 ++ l2 ∧ insertDescBy le key x M = l1 ++ x :: l2 ∧
      ∀ y ∈ l1, le (key y) (key x) = false := by
  induction M with
  | nil => exact ⟨[], [], rfl, rfl, by simp⟩
  | cons y ys ih =>
    by_cases h : le (key y) (key x) = true
    · exact ⟨[], y :: ys, rfl, by simp [insertDescBy, h], by simp⟩
    · obtain ⟨l1, l2, he, hi, hf⟩ := ih
      have hstep : insertDescBy le key x (y :: ys) = y :: insertDescBy le key x ys := by
        simp [insertDescBy, h]
      refine ⟨y :: l1, l2, by simp [he], ?_, ?_⟩
      · rw [hstep, hi, List.cons_append]
      · intro z hz
        rcases List.mem_cons.1 hz with hz | hz
        · subst hz; exact Bool.eq_false_iff.2 h
        · exact hf z hz

theorem insertDescBy_perm (le : β → β → Bool) (key : α → β) (x : α)
    (M : List α) : (insertDescBy le key x M).Perm (x :: M) := by
  obtain ⟨l1, l2, he, hi, -⟩ := insertDescBy_decomp le key x M
  rw [hi, he]
  exact List.perm_middle

theorem sortDescBy_perm (le : β → β → Bool) (key : α → β) (l : List α) :
    (sortDescBy le key l).Perm l := by
  induction l with
  | nil => exact List.Perm.refl _
  | cons x xs ih =>
    have h1 : (sortDescBy le key (x :: xs)).Perm (x :: sortDescBy le key xs) :=
      insertDescBy_perm le key x _
    exact h1.trans (List.Perm.cons x ih)

/-- Stability: filtering at any key value commutes with the sort, provided
the boolean order is reflexive. -/
theorem sortDescBy_filter [BEq β] [LawfulBEq β] (le : β → β → Bool)
    (key : α → β) (hrefl : ∀ b, le b b = true) (v : β) (l : List α) :
    (sortDescBy le key l).filter (fun a => key a == v) =
      l.filter (fun a => key a == v) := by
  induction l with
  | nil => rfl
  | cons x xs ih =>
    obtain ⟨l1, l2, he, hi, hf⟩ := insertDescBy_decomp le key x (sortDescBy le key xs)
    show (insertDescBy le key x (sortDescBy le key xs)).filter _ = _
    rw [hi, List.filter_append, List.filter_cons]
    by_cases hx : (key x == v) = true
    · have hxv : key x = v := eq_of_beq hx
      have hl1 : l1.filter (fun a => key a == v) = [] := by
        rw [List.filter_eq_nil_iff]
        intro y hy hyv
        have h1 : le (key y) (key x) = false := hf y hy
        have h2 : key y = key x := by
          rw [eq_of_beq (show (key y == v) = true from hyv), hxv]
        rw [h2, hrefl (key x)] at h1
        cases h1
      have hl2 : (sortDescBy le key xs).filter (fun a => key a == v) =
          l2.filter (fun a => key a == v) := by
        rw [he, List.filter_append, hl1, List.nil_append]
      rw [hl1, hx, if_pos rfl, List.nil_append, List.filter_cons, hx, if_pos rfl]
      rw [← hl2, ih]
    · have hxb : (key x == v) = false := Bool.eq_false_iff.2 hx
      rw [hxb, if_neg (by simp), List.filter_cons, hxb, if_neg (by simp)]
      rw [← List.filter_append, ← he, ih]

theorem mem_insertDescBy (le : β → β → Bool) (key : α → β) (x z : α)
    (M : List α) (h : z ∈ insertDescBy le key x M) : z = x ∨ z ∈ M := by
  obtain ⟨l1, l2, he, hi, -⟩ := insertDescBy_decomp le key x M
  subst he
  rw [hi] at h
  rcases List.mem_append.1 h with h | h
  · exact Or.inr (List.mem_append.2 (Or.inl h))
  · rcases List.mem_cons.1 h with h | h
    · exact Or.inl h
    · exact Or.inr (List.mem_append.2 (Or.inr h))

theorem insertDescBy_sorted (le : β → β → Bool) (key : α → β)
    (htot : ∀ a b, le a b = false → le b a = true)
    (htrans : ∀ a b c, le a b = true → le b c = true → le a c = true)
    (x : α) (M : List α) (hM : M.Pairwise (fun a b => le (key b) (key a) = true)) :
    (insertDescBy le key x M).Pairwise (fun a b => le (key b) (key a) = true) := by
  induction M with
  | nil => simp [insertDescBy]
  | cons y ys ih =>
    rcases List.pairwise_cons.1 hM with ⟨hy, hys⟩
    by_cases h : le (key y) (key x) = true
    · simp only [insertDescBy, h, if_true]
      refine List.pairwise_cons.2 ⟨?_, hM⟩
      intro z hz
      rcases List.mem_cons.1 hz with hz | hz
      · subst hz; exact h
      · exact htrans _ _ _ (hy z hz) h
    · simp only [insertDescBy, h, if_false]
      refine List.pairwise_cons.2 ⟨?_, ih hys⟩
      intro z hz
      rcases mem_insertDescBy le key x z ys hz with hz | hz
      · subst hz
        exact htot _ _ (Bool.eq_false_iff.2 h)
      · exact hy z hz

theorem sortDescBy_sorted (le : β → β → Bool) (key : α → β)
    (htot : ∀ a b, le a b = false → le b a = true)
    (htrans : ∀ a b c, le a b = true → le b c = true → le a c = true)
    (l : List α) :
    (sortDescBy le key l).Pairwise (fun a b => le (key b) (key a) = true) := by
  induction l with
  | nil => simp [sortDescBy]
  | cons x xs ih => exact insertDescBy_sorted le key htot htrans x _ ih

/-! #### The two key orders used by `get_channel_videos` -/

theorem natLe_refl (a : Nat) : natLe a a = true := by simp [natLe]

theorem natLe_total (a b : Nat) (h : natLe a b = false) : natLe b a = true := by
  simp [natLe] at *
  omega

theorem natLe_trans (a b c : Nat) (h1 : natLe a b = true) (h2 : natLe b c = true) :
    natLe a c = true := by
  simp [natLe] at *
  omega

theorem strLtB_irrefl (l : List Char) : strLtB l l = false := by
  induction l with
  | nil => rfl
  | cons a as ih => simp [strLtB, ih]

theorem strLtB_cons_eq (a b : Char) (as bs : List Char) :
    strLtB (a :: as) (b :: bs) =
      if a.toNat < b.toNat then true
      else if b.toNat < a.toNat then false
      else strLtB as bs := rfl

theorem strLtB_asymm (l m : List Char) (h : strLtB l m = true) :
    strLtB m l = false := by
  induction l generalizing m with
  | nil =>
    cases m with
    | nil => exact absurd h (by simp [strLtB])
    | cons b bs => rfl
  | cons a as ih =>
    cases m with
    | nil => exact absurd h (by simp [strLtB])
    | cons b bs =>
      rw [strLtB_cons_eq] at h
      rw [strLtB_cons_eq]
      by_cases hab : a.toNat < b.toNat
      · rw [if_neg (by omega : ¬b.toNat < a.toNat), if_pos hab]
      · by_cases hba : b.toNat < a.toNat
        · rw [if_neg hab, if_pos hba] at h
          cases h
        · rw [if_neg hab, if_neg hba] at h
          rw [if_neg hba, if_neg hab]
          exact ih bs h

theorem strLtB_trans (l m n : List Char) (h1 : strLtB l m = true)
    (h2 : strLtB m n = true) : strLtB l n = true := by
  induction l generalizing m n with
  | nil =>
    cases n with
    | nil =>
      cases m with
      | nil => exact h1
      | cons b bs => exact absurd h2 (by simp [strLtB])
    | cons c cs => rfl
  | cons a as ih =>
    cases m with
    | nil => exact absurd h1 (by simp [strLtB])
    | cons b bs =>
      cases n with
      | nil => exact absurd h2 (by simp [strLtB])
      | cons c cs =>
        rw [strLtB_cons_eq] at h1 h2 ⊢
        by_cases hab : a.toNat < b.toNat
        · rw [if_pos hab] at h1
          by_cases hbc : b.toNat < c.toNat
          · rw [if_pos (by omega : a.toNat < c.toNat)]
          · by_cases hcb : c.toNat < b.toNat
            · rw [if_neg hbc, if_pos hcb] at h2
              cases h2
            · rw [if_pos (by omega : a.toNat < c.toNat)]
        · by_cases hba : b.toNat < a.toNat
          · rw [if_neg hab, if_pos hba] at h1
            cases h1
          · rw [if_neg hab, if_neg hba] at h1
            by_cases hbc : b.toNat < c.toNat
            · rw [if_pos (by omega : a.toNat < c.toNat)]
            · by_cases hcb : c.toNat < b.toNat
              · rw [if_neg hbc, if_pos hcb] at h2
                cases h2
              · rw [if_neg hbc, if_neg hcb] at h2
                rw [if_neg (by omega : ¬a.toNat < c.toNat),
                  if_neg (by omega : ¬c.toNat < a.toNat)]
                exact ih bs cs h1 h2

theorem pyStrLe_refl (s : String) : pyStrLe s s = true := by
  simp [pyStrLe, strLtB_irrefl]

theorem pyStrLe_total (s t : String) (h : pyStrLe s t = false) :
    pyStrLe t s = true := by
  simp only [pyStrLe, Bool.not_eq_false', Bool.not_eq_true'] at *
  rw [strLtB_asymm _ _ h]

theorem strLtB_connex (l m : List Char) (h1 : strLtB l m = false)
    (h2 : strLtB m l = false) : l = m := by
  induction l generalizing m with
  | nil =>
    cases m with
    | nil => rfl
    | cons b bs => exact absurd h1 (by simp [strLtB])
  | cons a as ih =>
    cases m with
    | nil => exact absurd h2 (by simp [strLtB])
    | cons b bs =>
      rw [strLtB_cons_eq] at h1 h2
      by_cases hab : a.toNat < b.toNat
      · rw [if_pos hab] at h1; cases h1
      · by_cases hba : b.toNat < a.toNat
        · rw [if_pos hba] at h2; cases h2
        · have heqn : a.toNat = b.toNat := by omega
          have heq : a = b := Char.ext (UInt32.ext heqn)
          subst heq
          rw [if_neg hab, if_neg hba] at h1
          rw [if_neg hab, if_neg hba] at h2
          rw [ih bs h1 h2]

theorem pyStrLe_trans (s t u : String) (h1 : pyStrLe s t = true)
    (h2 : pyStrLe t u = true) : pyStrLe s u = true := by
  simp only [pyStrLe, Bool.not_eq_true'] at *
  by_cases hus : strLtB u.data s.data = true
  · by_cases hst : strLtB s.data t.data = true
    · rw [strLtB_trans _ _ _ hus hst] at h2
      cases h2
    · have hst' : strLtB s.data t.data = false := Bool.eq_false_iff.2 hst
      have : s.data = t.data := strLtB_connex _ _ hst' h1
      rw [← this] at h2
      rw [h2] at hus
      cases hus
  · exact Bool.eq_false_iff.2 hus

/-! ### ISO-8601 timestamps: lexicographic order is chronological order

The `publishedAt` strings sorted by `order="date"` are ISO-8601 UTC
timestamps of the fixed shape `YYYY-MM-DDTHH:MM:SSZ`.  For strings of that
shape, Python's lexicographic comparison (`strLtB`) coincides with
chronological comparison of the fields, which is the fact the specification
appeals to. -/

/-- Decimal digit character. -/
def digitCh (n : Nat) : Char :=
  Char.ofNat (48 + n % 10)

/-- Fixed-width zero-padded big-endian decimal rendering. -/
def padNum : Nat → Nat → List Char
  | 0, _ => []
  | k + 1, n => digitCh (n / 10 ^ k) :: padNum k (n % 10 ^ k)

/-- A timestamp with the fields of `YYYY-MM-DDTHH:MM:SSZ`. -/
structure Timestamp where
  y : Nat
  mo : Nat
  d : Nat
  h : Nat
  mi : Nat
  s : Nat
deriving Repr, DecidableEq

/-- Field bounds that make the fixed-width rendering faithful. -/
def validTS (t : Timestamp) : Prop :=
  t.y < 10000 ∧ t.mo < 100 ∧ t.d < 100 ∧ t.h < 100 ∧ t.mi < 100 ∧ t.s < 100

instance (t : Timestamp) : Decidable (validTS t) := by
  unfold validTS
  infer_instance

/-- The ISO-8601 UTC rendering `YYYY-MM-DDTHH:MM:SSZ`. -/
def renderISO (t : Timestamp) : String :=
  ⟨padNum 4 t.y ++ '-' ::
    (padNum 2 t.mo ++ '-' ::
      (padNum 2 t.d ++ 'T' ::
        (padNum 2 t.h ++ ':' ::
          (padNum 2 t.mi ++ ':' ::
            (padNum 2 t.s ++ ['Z'])))))⟩

/-- Chronological (field-lexicographic) strict order. -/
def chronoLt (a b : Timestamp) : Prop :=
  a.y < b.y ∨ (a.y = b.y ∧ (a.mo < b.mo ∨ (a.mo = b.mo ∧
    (a.d < b.d ∨ (a.d = b.d ∧ (a.h < b.h ∨ (a.h = b.h ∧
      (a.mi < b.mi ∨ (a.mi = b.mi ∧ a.s < b.s)))))))))

theorem digitCh_toNat (n : Nat) (h : n < 10) : (digitCh n).toNat = 48 + n := by
  have key : ∀ m : Fin 10, (digitCh m.val).toNat = 48 + m.val := by decide
  exact key ⟨n, h⟩

theorem digitCh_inj (n m : Nat) (hn : n < 10) (hm : m < 10)
    (h : digitCh n = digitCh m) : n = m := by
  have := congrArg Char.toNat h
  rw [digitCh_toNat n hn, digitCh_toNat m hm] at this
  omega

theorem mixed_radix_lt (B q1 r1 q2 r2 : Nat) (h1 : r1 < B) (h2 : r2 < B) :
    q1 * B + r1 < q2 * B + r2 ↔ q1 < q2 ∨ (q1 = q2 ∧ r1 < r2) := by
  constructor
  · intro h
    rcases Nat.lt_trichotomy q1 q2 with hq | hq | hq
    · exact Or.inl hq
    · subst hq
      exact Or.inr ⟨rfl, by omega⟩
    · exfalso
      have step : (q2 + 1) * B ≤ q1 * B := Nat.mul_le_mul_right B hq
      have expand : (q2 + 1) * B = q2 * B + B := by ring
      omega
  · rintro (hq | ⟨rfl, hr⟩)
    · have step : (q1 + 1) * B ≤ q2 * B := Nat.mul_le_mul_right B hq
      have expand : (q1 + 1) * B = q1 * B + B := by ring
      omega
    · omega

theorem mixed_radix_eq (B q1 r1 q2 r2 : Nat) (h1 : r1 < B) (h2 : r2 < B) :
    q1 * B + r1 = q2 * B + r2 ↔ q1 = q2 ∧ r1 = r2 := by
  constructor
  · intro h
    have hlt1 : ¬(q1 * B + r1 < q2 * B + r2) := by omega
    have hlt2 : ¬(q2 * B + r2 < q1 * B + r1) := by omega
    rw [mixed_radix_lt B q1 r1 q2 r2 h1 h2] at hlt1
    rw [mixed_radix_lt B q2 r2 q1 r1 h2 h1] at hlt2
    push_neg at hlt1 hlt2
    have hq : q1 = q2 := by omega
    refine ⟨hq, ?_⟩
    have e1 := hlt1.2 hq
    have e2 := hlt2.2 hq.symm
    omega
  · rintro ⟨rfl, rfl⟩
    rfl

theorem padNum_spec (k : Nat) : ∀ n m, n < 10 ^ k → m < 10 ^ k →
    ((padNum k n = padNum k m ↔ n = m) ∧
      (strLtB (padNum k n) (padNum k m) = true ↔ n < m)) := by
  induction k with
  | zero =>
    intro n m hn hm
    have hn0 : n = 0 := by simpa using hn
    have hm0 : m = 0 := by simpa using hm
    subst hn0; subst hm0
    exact ⟨by simp [padNum], by simp [strLtB]⟩
  | succ k ih =>
    intro n m hn hm
    have hB : 0 < 10 ^ k := Nat.pos_pow_of_pos k (by omega)
    have hq1 : n / 10 ^ k < 10 := by
      rw [Nat.div_lt_iff_lt_mul hB]
      rw [Nat.pow_succ] at hn
      omega
    have hq2 : m / 10 ^ k < 10 := by
      rw [Nat.div_lt_iff_lt_mul hB]
      rw [Nat.pow_succ] at hm
      omega
    have hr1 : n % 10 ^ k < 10 ^ k := Nat.mod_lt _ hB
    have hr2 : m % 10 ^ k < 10 ^ k := Nat.mod_lt _ hB
    have hdecn : n / 10 ^ k * 10 ^ k + n % 10 ^ k = n := by
      rw [Nat.mul_comm]
      exact Nat.div_add_mod n (10 ^ k)
    have hdecm : m / 10 ^ k * 10 ^ k + m % 10 ^ k = m := by
      rw [Nat.mul_comm]
      exact Nat.div_add_mod m (10 ^ k)
    obtain ⟨ihe, ihl⟩ := ih (n % 10 ^ k) (m % 10 ^ k) hr1 hr2
    constructor
    · show digitCh (n / 10 ^ k) :: padNum k (n % 10 ^ k) =
        digitCh (m / 10 ^ k) :: padNum k (m % 10 ^ k) ↔ n = m
      rw [List.cons.injEq]
      constructor
      · rintro ⟨hd, ht⟩
        have hq := digitCh_inj _ _ hq1 hq2 hd
        have hr := ihe.1 ht
        have hqq : n / 10 ^ k * 10 ^ k = m / 10 ^ k * 10 ^ k := by rw [hq]
        omega
      · intro h
        subst h
        exact ⟨rfl, rfl⟩
    · show strLtB (digitCh (n / 10 ^ k) :: padNum k (n % 10 ^ k))
        (digitCh (m / 10 ^ k) :: padNum k (m % 10 ^ k)) = true ↔ n < m
      rw [strLtB_cons_eq, digitCh_toNat _ hq1, digitCh_toNat _ hq2]
      have harith : n < m ↔ n / 10 ^ k < m / 10 ^ k ∨
          (n / 10 ^ k = m / 10 ^ k ∧ n % 10 ^ k < m % 10 ^ k) := by
        conv_lhs => rw [← hdecn, ← hdecm]
        exact mixed_radix_lt (10 ^ k) _ _ _ _ hr1 hr2
      by_cases hlt : n / 10 ^ k < m / 10 ^ k
      · rw [if_pos (by omega : 48 + n / 10 ^ k < 48 + m / 10 ^ k)]
        simp only [true_iff]
        rw [harith]
        exact Or.inl hlt
      · by_cases hgt : m / 10 ^ k < n / 10 ^ k
        · rw [if_neg (by omega : ¬48 + n / 10 ^ k < 48 + m / 10 ^ k),
            if_pos (by omega : 48 + m / 10 ^ k < 48 + n / 10 ^ k)]
          constructor
          · intro h; cases h
          · intro h
            rw [harith] at h
            omega
        · rw [if_neg (by omega : ¬48 + n / 10 ^ k < 48 + m / 10 ^ k),
            if_neg (by omega : ¬48 + m / 10 ^ k < 48 + n / 10 ^ k)]
          rw [ihl, harith]
          constructor
          · intro h; exact Or.inr ⟨by omega, h⟩
          · intro h
            rcases h with h | ⟨-, h⟩
            · omega
            · exact h

theorem padNum_length (k n : Nat) : (padNum k n).length = k := by
  induction k generalizing n with
  | zero => rfl
  | succ k ih => simp [padNum, ih]

theorem strLtB_same_start (p c1 c2 : List Char) :
    strLtB (p ++ c1) (p ++ c2) = strLtB c1 c2 := by
  induction p with
  | nil => rfl
  | cons a as ih =>
    rw [List.cons_append, List.cons_append, strLtB_cons_eq]
    rw [if_neg (by omega : ¬a.toNat < a.toNat), if_neg (by omega : ¬a.toNat < a.toNat)]
    exact ih

theorem strLtB_ne_start (p1 p2 c1 c2 : List Char) (hlen : p1.length = p2.length)
    (hne : p1 ≠ p2) : strLtB (p1 ++ c1) (p2 ++ c2) = strLtB p1 p2 := by
  induction p1 generalizing p2 with
  | nil =>
    cases p2 with
    | nil => exact absurd rfl hne
    | cons b bs => cases hlen
  | cons a as ih =>
    cases p2 with
    | nil => cases hlen
    | cons b bs =>
      rw [List.cons_append, List.cons_append, strLtB_cons_eq, strLtB_cons_eq]
      by_cases hab : a.toNat < b.toNat
      · rw [if_pos hab, if_pos hab]
      · by_cases hba : b.toNat < a.toNat
        · rw [if_neg hab, if_pos hba, if_neg hab, if_pos hba]
        · have heqn : a.toNat = b.toNat := by omega
          have heq : a = b := Char.ext (UInt32.ext heqn)
          subst heq
          have hne2 : as ≠ bs := fun h => hne (by rw [h])
          have hlen2 : as.length = bs.length := by simpa using hlen
          rw [if_neg hab, if_neg hba, if_neg hab, if_neg hba]
          exact ih bs hlen2 hne2

/-- One fixed-width field followed by a common separator: the comparison is
decided by the field unless the fields agree. -/
theorem strLtB_field_step (k x y : Nat) (sep : Char) (c1 c2 : List Char)
    (hx : x < 10 ^ k) (hy : y < 10 ^ k) :
    strLtB (padNum k x ++ sep :: c1) (padNum k y ++ sep :: c2) =
      if x < y then true else if y < x then false else strLtB c1 c2 := by
  obtain ⟨he, hl⟩ := padNum_spec k x y hx hy
  obtain ⟨he', hl'⟩ := padNum_spec k y x hy hx
  have hlen : (padNum k x).length = (padNum k y).length := by
    rw [padNum_length, padNum_length]
  by_cases hxy : x < y
  · have hne : padNum k x ≠ padNum k y := fun h => by
      have := he.1 h
      omega
    rw [strLtB_ne_start _ _ _ _ hlen hne, if_pos hxy, hl.2 hxy]
  · by_cases hyx : y < x
    · have hne : padNum k x ≠ padNum k y := fun h => by
        have := he.1 h
        omega
      rw [strLtB_ne_start _ _ _ _ hlen hne, if_neg hxy, if_pos hyx]
      exact strLtB_asymm _ _ (hl'.2 hyx)
    · have hxyeq : x = y := by omega
      subst hxyeq
      rw [if_neg hxy, if_neg hyx]
      have h1 : padNum k x ++ sep :: c1 = (padNum k x ++ [sep]) ++ c1 := by simp
      have h2 : padNum k x ++ sep :: c2 = (padNum k x ++ [sep]) ++ c2 := by simp
      rw [h1, h2, strLtB_same_start]

/-- For fixed-shape ISO-8601 timestamps, Python's lexicographic string
comparison is chronological comparison. -/
theorem renderISO_lt_iff (a b : Timestamp) (ha : validTS a) (hb : validTS b) :
    (strLtB (renderISO a).data (renderISO b).data = true ↔ chronoLt a b) := by
  obtain ⟨hay, ham, had, hah, hai, has⟩ := ha
  obtain ⟨hby, hbm, hbd, hbh, hbi, hbs⟩ := hb
  have hay' : a.y < 10 ^ 4 := by omega
  have hby' : b.y < 10 ^ 4 := by omega
  have ham' : a.mo < 10 ^ 2 := by omega
  have hbm' : b.mo < 10 ^ 2 := by omega
  have had' : a.d < 10 ^ 2 := by omega
  have hbd' : b.d < 10 ^ 2 := by omega
  have hah' : a.h < 10 ^ 2 := by omega
  have hbh' : b.h < 10 ^ 2 := by omega
  have hai' : a.mi < 10 ^ 2 := by omega
  have hbi' : b.mi < 10 ^ 2 := by omega
  have has' : a.s < 10 ^ 2 := by omega
  have hbs' : b.s < 10 ^ 2 := by omega
  have hda : (renderISO a).data =
      padNum 4 a.y ++ '-' :: (padNum 2 a.mo ++ '-' :: (padNum 2 a.d ++ 'T' ::
        (padNum 2 a.h ++ ':' :: (padNum 2 a.mi ++ ':' :: (padNum 2 a.s ++ 'Z' :: []))))) := rfl
  have hdb : (renderISO b).data =
      padNum 4 b.y ++ '-' :: (padNum 2 b.mo ++ '-' :: (padNum 2 b.d ++ 'T' ::
        (padNum 2 b.h ++ ':' :: (padNum 2 b.mi ++ ':' :: (padNum 2 b.s ++ 'Z' :: []))))) := rfl
  rw [hda, hdb,
    strLtB_field_step 4 a.y b.y '-' _ _ hay' hby',
    strLtB_field_step 2 a.mo b.mo '-' _ _ ham' hbm',
    strLtB_field_step 2 a.d b.d 'T' _ _ had' hbd',
    strLtB_field_step 2 a.h b.h ':' _ _ hah' hbh',
    strLtB_field_step 2 a.mi b.mi ':' _ _ hai' hbi',
    strLtB_field_step 2 a.s b.s 'Z' _ _ has' hbs']
  unfold chronoLt
  rcases Nat.lt_trichotomy a.y b.y with h1 | h1 | h1
  · rw [if_pos h1]
    exact iff_of_true rfl (by omega)
  · rw [if_neg (by omega : ¬a.y < b.y), if_neg (by omega : ¬b.y < a.y)]
    rcases Nat.lt_trichotomy a.mo b.mo with h2 | h2 | h2
    · rw [if_pos h2]
      exact iff_of_true rfl (by omega)
    · rw [if_neg (by omega : ¬a.mo < b.mo), if_neg (by omega : ¬b.mo < a.mo)]
      rcases Nat.lt_trichotomy a.d b.d with h3 | h3 | h3
      · rw [if_pos h3]
        exact iff_of_true rfl (by omega)
      · rw [if_neg (by omega : ¬a.d < b.d), if_neg (by omega : ¬b.d < a.d)]
        rcases Nat.lt_trichotomy a.h b.h with h4 | h4 | h4
        · rw [if_pos h4]
          exact iff_of_true rfl (by omega)
        · rw [if_neg (by omega : ¬a.h < b.h), if_neg (by omega : ¬b.h < a.h)]
          rcases Nat.lt_trichotomy a.mi b.mi with h5 | h5 | h5
          · rw [if_pos h5]
            exact iff_of_true rfl (by omega)
          · rw [if_neg (by omega : ¬a.mi < b.mi), if_neg (by omega : ¬b.mi < a.mi)]
            rcases Nat.lt_trichotomy a.s b.s with h6 | h6 | h6
            · rw [if_pos h6]
              exact iff_of_true rfl (by omega)
            · rw [if_neg (by omega : ¬a.s < b.s), if_neg (by omega : ¬b.s < a.s)]
              exact iff_of_false (by decide) (by omega)
            · rw [if_neg (by omega : ¬a.s < b.s), if_pos h6]
              exact iff_of_false Bool.false_ne_true (by omega)
          · rw [if_neg (by omega : ¬a.mi < b.mi), if_pos h5]
            exact iff_of_false Bool.false_ne_true (by omega)
        · rw [if_neg (by omega : ¬a.h < b.h), if_pos h4]
          exact iff_of_false Bool.false_ne_true (by omega)
      · rw [if_neg (by omega : ¬a.d < b.d), if_pos h3]
        exact iff_of_false Bool.false_ne_true (by omega)
    · rw [if_neg (by omega : ¬a.mo < b.mo), if_pos h2]
      exact iff_of_false Bool.false_ne_true (by omega)
  · rw [if_neg (by omega : ¬a.y < b.y), if_pos h1]
    exact iff_of_false Bool.false_ne_true (by omega)

/-! ### Lemmas about the pagination loops -/

/-- Page `k` stops the loop: it either fails or carries no continuation
cursor. -/
def pageStops (pages : Nat → Except String CommentsPage) (k : Nat) : Prop :=
  ∀ pg, pages k = .ok pg → pg.nextPageToken = none

/-- With positive fuel, a loop entered at or above the cap issues no
further page request. -/
theorem commentsLoop_at_cap (pages : Nat → Except String CommentsPage)
    (maxC fuel k : Nat) (acc : List CommentRecord)
    (hcap : maxC ≤ acc.length) (hfuel : 0 < fuel) :
    commentsLoop pages maxC fuel k acc = some (.ok (acc, k)) := by
  cases fuel with
  | zero => omega
  | succ n =>
    rw [commentsLoop, if_neg (by omega : ¬acc.length < maxC)]

theorem uploadsLoop_at_cap (pages : Nat → Nat → Except String PlaylistItemsPage)
    (det : Nat → List String → Except String (List RawVideo))
    (maxV fuel k : Nat) (acc : List VideoRecord)
    (hcap : maxV ≤ acc.length) (hfuel : 0 < fuel) :
    uploadsLoop pages det maxV fuel k acc = some (.ok (acc, k)) := by
  cases fuel with
  | zero => omega
  | succ n =>
    rw [uploadsLoop, if_neg (by omega : ¬acc.length < maxV)]

theorem addThreads_mono (maxC : Nat) (acc : List CommentRecord)
    (ts : List Thread) : acc.length ≤ (addThreads maxC acc ts).length := by
  induction ts generalizing acc with
  | nil => exact Nat.le_refl _
  | cons t ts ih =>
    rw [addThreads]
    by_cases h : maxC ≤ (acc ++ flattenThread t).length
    · rw [if_pos h]
      simp
    · rw [if_neg h]
      have h1 := ih (acc ++ flattenThread t)
      simp at h1
      omega

/-- If the threads of a page carry at least one record in total and the
accumulator is below the cap, flattening the page strictly grows the
accumulator. -/
theorem addThreads_progress (maxC : Nat) (acc : List CommentRecord)
    (ts : List Thread) (hacc : acc.length < maxC)
    (hts : 1 ≤ (ts.map fun t => (flattenThread t).length).sum) :
    acc.length + 1 ≤ (addThreads maxC acc ts).length := by
  induction ts generalizing acc with
  | nil => simp at hts
  | cons t ts ih =>
    rw [addThreads]
    by_cases h : maxC ≤ (acc ++ flattenThread t).length
    · rw [if_pos h]
      simp at h ⊢
      omega
    · rw [if_neg h]
      by_cases hft : (flattenThread t).length = 0

      · have hsum : 1 ≤ (ts.map fun t => (flattenThread t).length).sum := by
          simp [hft] at hts
          simpa using hts
        have hlen : (acc ++ flattenThread t).length = acc.length := by
          simp [hft]
        have := ih (acc ++ flattenThread t) (by omega) hsum
        omega
      · have h1 := addThreads_mono maxC (acc ++ flattenThread t) ts
        have hlen : acc.length + 1 ≤ (acc ++ flattenThread t).length := by
          simp
          omega
        omega

/-- Termination of the comments pagination loop when every successful page
contributes at least one record, or some page fails or lacks a cursor. -/
theorem commentsLoop_terminates (pages : Nat → Except String CommentsPage)
    (maxC : Nat)
    (hcond : (∀ k pg, pages k = .ok pg →
        1 ≤ (pg.threads.map fun t => (flattenThread t).length).sum) ∨
      ∃ k0, pageStops pages k0) :
    ∃ fuel r, commentsLoop pages maxC fuel 0 [] = some r := by
  rcases hcond with hprog | ⟨k0, hstop⟩
  · have key : ∀ fuel k (acc : List CommentRecord), 0 < fuel →
        maxC < acc.length + fuel →
        ∃ r, commentsLoop pages maxC fuel k acc = some r := by
      intro fuel
      induction fuel with
      | zero => intro k acc h; omega
      | succ n ih =>
        intro k acc hpos hlt
        by_cases hcap : acc.length < maxC
        · rw [commentsLoop, if_pos hcap]
          cases hpg : pages k with
          | error e => exact ⟨.error e, rfl⟩
          | ok pg =>
            have hgrow := addThreads_progress maxC acc pg.threads hcap (hprog k pg hpg)
            dsimp only
            cases htok : pg.nextPageToken with
            | none => exact ⟨.ok (addThreads maxC acc pg.threads, k + 1), rfl⟩
            | some tok =>
              have hn : 0 < n := by omega
              exact ih (k + 1) (addThreads maxC acc pg.threads) hn (by omega)
        · exact ⟨.ok (acc, k), commentsLoop_at_cap pages maxC _ k acc (by omega) (by omega)⟩
    obtain ⟨r, hr⟩ := key (maxC + 1) 0 [] (by omega) (by simp)
    exact ⟨maxC + 1, r, hr⟩
  · have key : ∀ fuel k (acc : List CommentRecord), k ≤ k0 → k0 < k + fuel →
        ∃ r, commentsLoop pages maxC fuel k acc = some r := by
      intro fuel
      induction fuel with
      | zero => intro k acc h1 h2; omega
      | succ n ih =>
        intro k acc hk hlt
        by_cases hcap : acc.length < maxC
        · rw [commentsLoop, if_pos hcap]
          cases hpg : pages k with
          | error e => exact ⟨.error e, rfl⟩
          | ok pg =>
            dsimp only
            cases htok : pg.nextPageToken with
            | none => exact ⟨.ok (addThreads maxC acc pg.threads, k + 1), rfl⟩
            | some tok =>
              have hkne : k ≠ k0 := by
                intro hh
                subst hh
                have := hstop pg hpg
                rw [this] at htok
                cases htok
              exact ih (k + 1) (addThreads maxC acc pg.threads) (by omega) (by omega)
        · exact ⟨.ok (acc, k), commentsLoop_at_cap pages maxC _ k acc (by omega) (by omega)⟩
    obtain ⟨r, hr⟩ := key (k0 + 1) 0 [] (by omega) (by omega)
    exact ⟨k0 + 1, r, hr⟩

/-- A successful comments loop exits exactly at the cap or at a missing
cursor. -/
theorem commentsLoop_exit (pages : Nat → Except String CommentsPage)
    (maxC : Nat) : ∀ fuel k acc items reqs,
    commentsLoop pages maxC fuel k acc = some (.ok (items, reqs)) →
    maxC ≤ items.length ∨
      (k < reqs ∧ ∃ pg, pages (reqs - 1) = .ok pg ∧ pg.nextPageToken = none) := by
  intro fuel
  induction fuel with
  | zero => intro k acc items reqs h; cases h
  | succ n ih =>
    intro k acc items reqs h
    rw [commentsLoop] at h
    by_cases hcap : acc.length < maxC
    · rw [if_pos hcap] at h
      cases hpg : pages k with
      | error e =>
        rw [hpg] at h
        simp at h
      | ok pg =>
        rw [hpg] at h
        dsimp only at h
        cases htok : pg.nextPageToken with
        | none =>
          rw [htok] at h
          have h' : addThreads maxC acc pg.threads = items ∧ k + 1 = reqs := by
            simpa using h
          obtain ⟨h1, h2⟩ := h'
          subst h2
          refine Or.inr ⟨by omega, pg, ?_, htok⟩
          simpa using hpg
        | some tok =>
          rw [htok] at h
          rcases ih (k + 1) _ items reqs h with hc | ⟨hk, hrest⟩
          · exact Or.inl hc
          · exact Or.inr ⟨by omega, hrest⟩
    · rw [if_neg hcap] at h
      have h' : acc = items ∧ k = reqs := by simpa using h
      obtain ⟨h1, h2⟩ := h'
      subst h1
      exact Or.inl (by omega)

/-- Honest upstream: as long as each page returns at most the requested
number of items and the details call at most one record per id, the
accumulator never exceeds the cap. -/
theorem uploadsLoop_le (pages : Nat → Nat → Except String PlaylistItemsPage)
    (det : Nat → List String → Except String (List RawVideo)) (maxV : Nat)
    (hp : ∀ k m pg, pages k m = .ok pg → pg.videoIds.length ≤ m)
    (hd : ∀ k ids raws, det k ids = .ok raws → raws.length ≤ ids.length) :
    ∀ fuel k acc vids reqs, acc.length ≤ maxV →
      uploadsLoop pages det maxV fuel k acc = some (.ok (vids, reqs)) →
      vids.length ≤ maxV := by
  intro fuel
  induction fuel with
  | zero => intro k acc vids reqs hacc h; cases h
  | succ n ih =>
    intro k acc vids reqs hacc h
    rw [uploadsLoop] at h
    by_cases hcap : acc.length < maxV
    · rw [if_pos hcap] at h
      cases hpg : pages k (min 50 (maxV - acc.length)) with
      | error e =>
        rw [hpg] at h
        simp at h
      | ok pg =>
        rw [hpg] at h
        dsimp only at h
        have hple := hp k _ pg hpg
        by_cases hids : pg.videoIds.isEmpty = true
        · rw [if_pos hids] at h
          dsimp only at h
          cases htok : pg.nextPageToken with
          | none =>
            rw [htok] at h
            have h' : acc = vids ∧ k + 1 = reqs := by simpa using h
            obtain ⟨h1, -⟩ := h'
            subst h1
            exact hacc
          | some tok =>
            rw [htok] at h
            dsimp only at h
            by_cases hcap2 : maxV ≤ acc.length
            · rw [if_pos hcap2] at h
              have h' : acc = vids ∧ k + 1 = reqs := by simpa using h
              obtain ⟨h1, -⟩ := h'
              subst h1
              exact hacc
            · rw [if_neg hcap2] at h
              exact ih (k + 1) acc vids reqs hacc h
        · rw [if_neg hids] at h
          cases hdet : det k pg.videoIds with
          | error e =>
            rw [hdet] at h
            simp at h
          | ok raws =>
            rw [hdet] at h
            dsimp only at h
            have hdle := hd k _ raws hdet
            have hacc2 : (acc ++ raws.map pack_video).length ≤ maxV := by
              rw [List.length_append, List.length_map]
              omega
            cases htok : pg.nextPageToken with
            | none =>
              rw [htok] at h
              have h' : acc ++ raws.map pack_video = vids ∧ k + 1 = reqs := by
                simpa using h
              obtain ⟨h1, -⟩ := h'
              subst h1
              exact hacc2
            | some tok =>
              rw [htok] at h
              dsimp only at h
              by_cases hcap2 : maxV ≤ (acc ++ raws.map pack_video).length
              · rw [if_pos hcap2] at h
                have h' : acc ++ raws.map pack_video = vids ∧ k + 1 = reqs := by
                  simpa using h
                obtain ⟨h1, -⟩ := h'
                subst h1
                exact hacc2
              · rw [if_neg hcap2] at h
                exact ih (k + 1) _ vids reqs hacc2 h
    · rw [if_neg hcap] at h
      have h' : acc = vids ∧ k = reqs := by simpa using h
      obtain ⟨h1, -⟩ := h'
      subst h1
      exact hacc

/-- A successful uploads loop exits exactly at the cap or at a missing
cursor. -/
theorem uploadsLoop_exit (pages : Nat → Nat → Except String PlaylistItemsPage)
    (det : Nat → List String → Except String (List RawVideo)) (maxV : Nat) :
    ∀ fuel k acc vids reqs,
      uploadsLoop pages det maxV fuel k acc = some (.ok (vids, reqs)) →
      maxV ≤ vids.length ∨
        (k < reqs ∧ ∃ m pg, pages (reqs - 1) m = .ok pg ∧ pg.nextPageToken = none) := by
  intro fuel
  induction fuel with
  | zero => intro k acc vids reqs h; cases h
  | succ n ih =>
    intro k acc vids reqs h
    rw [uploadsLoop] at h
    by_cases hcap : acc.length < maxV
    · rw [if_pos hcap] at h
      cases hpg : pages k (min 50 (maxV - acc.length)) with
      | error e =>
        rw [hpg] at h
        simp at h
      | ok pg =>
        rw [hpg] at h
        dsimp only at h
        have hstep : ∀ acc2 : List VideoRecord,
            ((match pg.nextPageToken with
              | none => some (Except.ok (acc2, k + 1))
              | some _ =>
                if maxV ≤ acc2.length then some (Except.ok (acc2, k + 1))
                else uploadsLoop pages det maxV n (k + 1) acc2) =
              some (.ok (vids, reqs))) →
            maxV ≤ vids.length ∨
              (k < reqs ∧ ∃ m pg, pages (reqs - 1) m = .ok pg ∧
                pg.nextPageToken = none) := by
          intro acc2 hh
          cases htok : pg.nextPageToken with
          | none =>
            rw [htok] at hh
            have h' : acc2 = vids ∧ k + 1 = reqs := by simpa using hh
            obtain ⟨-, h2⟩ := h'
            subst h2
            refine Or.inr ⟨by omega, min 50 (maxV - acc.length), pg, ?_, htok⟩
            simpa using hpg
          | some tok =>
            rw [htok] at hh
            by_cases hcap2 : maxV ≤ acc2.length
            · rw [if_pos hcap2] at hh
              have h' : acc2 = vids ∧ k + 1 = reqs := by simpa using hh
              obtain ⟨h1, -⟩ := h'
              subst h1
              exact Or.inl hcap2
            · rw [if_neg hcap2] at hh
              rcases ih (k + 1) acc2 vids reqs hh with hc | ⟨hk, hrest⟩
              · exact Or.inl hc
              · exact Or.inr ⟨by omega, hrest⟩
        by_cases hids : pg.videoIds.isEmpty = true
        · rw [if_pos hids] at h
          dsimp only at h
          exact hstep acc h
        · rw [if_neg hids] at h
          cases hdet : det k pg.videoIds with
          | error e =>
            rw [hdet] at h
            simp at h
          | ok raws =>
            rw [hdet] at h
            dsimp only at h
            exact hstep (acc ++ raws.map pack_video) h
    · rw [if_neg hcap] at h
      have h' : acc = vids ∧ k = reqs := by simpa using h
      obtain ⟨h1, -⟩ := h'
      subst h1
      exact Or.inl (by omega)

/-- Termination of the uploads loop when every page yields ids and every
details call yields records, or some page request stops the loop. -/
theorem uploadsLoop_terminates (pages : Nat → Nat → Except String PlaylistItemsPage)
    (det : Nat → List String → Except String (List RawVideo)) (maxV : Nat)
    (hcond : (∀ k m pg, pages k m = .ok pg → pg.videoIds ≠ []) ∧
      (∀ k ids raws, det k ids = .ok raws → raws ≠ []) ∨
      ∃ k0, ∀ m pg, pages k0 m = .ok pg → pg.nextPageToken = none) :
    ∃ fuel r, uploadsLoop pages det maxV fuel 0 [] = some r := by
  rcases hcond with ⟨hpids, hdraws⟩ | ⟨k0, hstop⟩
  · have key : ∀ fuel k (acc : List VideoRecord), 0 < fuel →
        maxV < acc.length + fuel →
        ∃ r, uploadsLoop pages det maxV fuel k acc = some r := by
      intro fuel
      induction fuel with
      | zero => intro k acc h; omega
      | succ n ih =>
        intro k acc hpos hlt
        by_cases hcap : acc.length < maxV
        · rw [uploadsLoop, if_pos hcap]
          cases hpg : pages k (min 50 (maxV - acc.length)) with
          | error e => exact ⟨.error e, rfl⟩
          | ok pg =>
            dsimp only
            have hne : pg.videoIds.isEmpty = false := by
              cases hv : pg.videoIds with
              | nil => exact absurd hv (hpids k _ pg hpg)
              | cons a l => rfl
            rw [if_neg (by simp [hne])]
            cases hdet : det k pg.videoIds with
            | error e => exact ⟨.error e, rfl⟩
            | ok raws =>
              dsimp only
              have hrne : raws ≠ [] := hdraws k _ raws hdet
              have hrlen : 1 ≤ raws.length := by
                cases hr : raws with
                | nil => exact absurd hr hrne
                | cons a l => simp
              have hlen2 : acc.length + 1 ≤ (acc ++ raws.map pack_video).length := by
                rw [List.length_append, List.length_map]
                omega
              cases htok : pg.nextPageToken with
              | none => exact ⟨.ok (acc ++ raws.map pack_video, k + 1), rfl⟩
              | some tok =>
                by_cases hcap2 : maxV ≤ (acc ++ raws.map pack_video).length
                · rw [if_pos hcap2]
                  exact ⟨.ok (acc ++ raws.map pack_video, k + 1), rfl⟩
                · rw [if_neg hcap2]
                  exact ih (k + 1) _ (by omega) (by omega)
        · exact ⟨.ok (acc, k),
            uploadsLoop_at_cap pages det maxV _ k acc (by omega) (by omega)⟩
    obtain ⟨r, hr⟩ := key (maxV + 1) 0 [] (by omega) (by simp)
    exact ⟨maxV + 1, r, hr⟩
  · have key : ∀ fuel k (acc : List VideoRecord), k ≤ k0 → k0 < k + fuel →
        ∃ r, uploadsLoop pages det maxV fuel k acc = some r := by
      intro fuel
      induction fuel with
      | zero => intro k acc h1 h2; omega
      | succ n ih =>
        intro k acc hk hlt
        by_cases hcap : acc.length < maxV
        · rw [uploadsLoop, if_pos hcap]
          cases hpg : pages k (min 50 (maxV - acc.length)) with
          | error e => exact ⟨.error e, rfl⟩
          | ok pg =>
            dsimp only
            have hstep : ∀ acc2 : List VideoRecord,
                ∃ r, (match pg.nextPageToken with
                  | none => some (Except.ok (acc2, k + 1))
                  | some _ =>
                    if maxV ≤ acc2.length then some (Except.ok (acc2, k + 1))
                    else uploadsLoop pages det maxV n (k + 1) acc2) = some r := by
              intro acc2
              cases htok : pg.nextPageToken with
              | none => exact ⟨.ok (acc2, k + 1), rfl⟩
              | some tok =>
                have hkne : k ≠ k0 := by
                  intro hh
                  subst hh
                  have := hstop _ pg hpg
                  rw [this] at htok
                  cases htok
                by_cases hcap2 : maxV ≤ acc2.length
                · rw [if_pos hcap2]
                  exact ⟨.ok (acc2, k + 1), rfl⟩
                · rw [if_neg hcap2]
                  exact ih (k + 1) acc2 (by omega) (by omega)
            by_cases hids : pg.videoIds.isEmpty = true
            · rw [if_pos hids]
              exact hstep acc
            · rw [if_neg hids]
              cases hdet : det k pg.videoIds with
              | error e => exact ⟨.error e, rfl⟩
              | ok raws =>
                dsimp only
                exact hstep (acc ++ raws.map pack_video)
        · exact ⟨.ok (acc, k),
            uploadsLoop_at_cap pages det maxV _ k acc (by omega) (by omega)⟩
    obtain ⟨r, hr⟩ := key (k0 + 1) 0 [] (by omega) (by omega)
    exact ⟨k0 + 1, r, hr⟩

/-- Exact request count: when the upstream always returns full pages with a
continuation cursor and the details call resolves every id, the loop
performs exactly `⌈(cap − already) / 50⌉` page requests and fills the
accumulator to the cap. -/
theorem uploadsLoop_full (pages : Nat → Nat → Except String PlaylistItemsPage)
    (det : Nat → List String → Except String (List RawVideo)) (maxV : Nat)
    (hp : ∀ k m, ∃ pg, pages k m = .ok pg ∧ pg.videoIds.length = m ∧
      pg.nextPageToken ≠ none)
    (hd : ∀ k ids, ∃ raws, det k ids = .ok raws ∧ raws.length = ids.length) :
    ∀ fuel k acc, acc.length ≤ maxV → (maxV - acc.length + 49) / 50 < fuel →
      ∃ vids, uploadsLoop pages det maxV fuel k acc =
        some (.ok (vids, k + (maxV - acc.length + 49) / 50)) ∧
        vids.length = maxV := by
  intro fuel
  induction fuel with
  | zero => intro k acc hacc h; omega
  | succ n ih =>
    intro k acc hacc hfuel
    by_cases hcap : acc.length < maxV
    · obtain ⟨pg, hpg, hplen, hptok⟩ := hp k (min 50 (maxV - acc.length))
      obtain ⟨raws, hdet, hdlen⟩ := hd k pg.videoIds
      rw [uploadsLoop, if_pos hcap, hpg]
      dsimp only
      have hne : pg.videoIds.isEmpty = false := by
        cases hv : pg.videoIds with
        | nil =>
          rw [hv] at hplen
          simp at hplen
          omega
        | cons a l => rfl
      rw [if_neg (by simp [hne]), hdet]
      dsimp only
      have hlen2 : (acc ++ raws.map pack_video).length =
          acc.length + min 50 (maxV - acc.length) := by
        rw [List.length_append, List.length_map, hdlen, hplen]
      cases htok : pg.nextPageToken with
      | none => exact absurd htok hptok
      | some tok =>
        by_cases hr : maxV - acc.length ≤ 50
        · have hcap2 : maxV ≤ (acc ++ raws.map pack_video).length := by
            rw [hlen2]
            omega
          rw [if_pos hcap2]
          refine ⟨acc ++ raws.map pack_video, ?_, by rw [hlen2]; omega⟩
          have hone : (maxV - acc.length + 49) / 50 = 1 := by omega
          rw [hone]
        · have hlen2' : (acc ++ raws.map pack_video).length = acc.length + 50 := by
            rw [hlen2]
            omega
          have hcap2 : ¬maxV ≤ (acc ++ raws.map pack_video).length := by
            rw [hlen2']
            omega
          rw [if_neg hcap2]
          obtain ⟨vids, hv, hvl⟩ := ih (k + 1) (acc ++ raws.map pack_video)
            (by rw [hlen2']; omega) (by rw [hlen2']; omega)
          refine ⟨vids, ?_, hvl⟩
          rw [hv, hlen2']
          have harith : k + 1 + (maxV - (acc.length + 50) + 49) / 50 =
              k + (maxV - acc.length + 49) / 50 := by omega
          rw [harith]
    · have heq : acc.length = maxV := by omega
      have hzero : (maxV - acc.length + 49) / 50 = 0 := by omega
      rw [hzero]
      refine ⟨acc, ?_, heq⟩
      have := uploadsLoop_at_cap pages det maxV (n + 1) k acc (by omega) (by omega)
      simpa using this

/-! ### Computation lemmas for the supported URL shapes -/

theorem vidChar_beq_false' (c d : Char) (hc : vidChar c = true)
    (hd : vidChar d = false) : (d == c) = false := by
  by_cases h : d = c
  · subst h; rw [hc] at hd; cases hd
  · simp [h]

theorem dropWhile_all_true {p : Char → Bool} :
    ∀ {l : List Char}, (∀ c ∈ l, p c = true) → l.dropWhile p = [] := by
  intro l
  induction l with
  | nil => intro h; rfl
  | cons a as ih =>
    intro h
    have ha := h a (by simp)
    simp only [List.dropWhile_cons, ha, if_true]
    exact ih fun c hc => h c (by simp [hc])

theorem map_id_of {f : Char → Char} :
    ∀ {l : List Char}, (∀ c ∈ l, f c = c) → l.map f = l := by
  intro l
  induction l with
  | nil => intro h; rfl
  | cons a as ih =>
    intro h
    rw [List.map_cons, h a (by simp), ih fun c hc => h c (by simp [hc])]

theorem pctDecode_id : ∀ {l : List Char}, (∀ c ∈ l, (c == '%') = false) →
    pctDecode l = l := by
  intro l
  induction l with
  | nil => intro h; rfl
  | cons c rest ih =>
    intro h
    have hc := h c (by simp)
    have hrest : ∀ d ∈ rest, (d == '%') = false := fun d hd => h d (by simp [hd])
    match rest with
    | a :: b :: rest2 =>
      show pctDecode (c :: a :: b :: rest2) = _
      rw [pctDecode, if_neg (by simp_all)]
      rw [ih hrest]
    | [a] =>
      show pctDecode (c :: [a]) = _
      rw [show pctDecode (c :: [a]) = c :: pctDecode [a] from rfl, ih hrest]
    | [] =>
      show pctDecode [c] = _
      rw [show pctDecode [c] = c :: pctDecode [] from rfl]
      rfl

theorem unquotePlus_id {l : List Char} (h : ∀ c ∈ l, vidChar c = true) :
    unquotePlus l = l := by
  unfold unquotePlus
  have hmap : l.map (fun c => if c == '+' then ' ' else c) = l :=
    map_id_of fun c hc => by
      rw [if_neg (by simp [vidChar_ne c '+' (h c hc) (by decide)])]
  rw [hmap]
  exact pctDecode_id fun c hc => vidChar_ne c '%' (h c hc) (by decide)

theorem splitListOn_no_sep (sep : Char) :
    ∀ {l : List Char}, (∀ c ∈ l, (c == sep) = false) → splitListOn sep l = [l] := by
  intro l
  induction l with
  | nil => intro h; rfl
  | cons c cs ih =>
    intro h
    rw [splitListOn, if_neg (by simp [h c (by simp)]), ih fun d hd => h d (by simp [hd])]

/-- The single-binding query `v=<id>` parses to the id. -/
theorem parseQsFirst_v (ids : List Char) (h : ∀ c ∈ ids, vidChar c = true)
    (hne : ids ≠ []) : parseQsFirst ('v' :: '=' :: ids) "v".data = some ids := by
  unfold parseQsFirst
  have hnosep : ∀ c ∈ 'v' :: '=' :: ids, (c == '&') = false := by
    intro c hc
    rcases List.mem_cons.1 hc with rfl | hc
    · decide
    · rcases List.mem_cons.1 hc with rfl | hc
      · decide
      · exact vidChar_ne c '&' (h c hc) (by decide)
  rw [splitListOn_no_sep '&' hnosep]
  have hsplit : splitAtFirst (fun c => c == '=') ('v' :: '=' :: ids) =
      (['v'], '=' :: ids) := by
    unfold splitAtFirst
    simp [List.takeWhile, List.dropWhile]
  simp only [List.filterMap, hsplit]
  have hide : ids.isEmpty = false := by
    cases ids with
    | nil => exact absurd rfl hne
    | cons a l => rfl
  simp only [List.isEmpty_cons, hide, if_false, Bool.false_eq_true]
  rw [unquotePlus_id h]
  have huv : unquotePlus ['v'] = ['v'] := by decide
  rw [huv]
  simp [List.find?]

/-- The query-less parse finds no `v` binding. -/
theorem parseQsFirst_empty (name : List Char) : parseQsFirst [] name = none := rfl

/-- The embed-path regular expression captures the id. -/
theorem embedSearch_embed (ids : List Char) (h : ∀ c ∈ ids, vidChar c = true)
    (hlen : 6 ≤ ids.length) :
    embedSearch ("/embed/".data ++ ids) = some ids := by
  have hshape : "/embed/".data ++ ids =
      '/' :: ('e' :: 'm' :: 'b' :: 'e' :: 'd' :: '/' :: ids) := rfl
  rw [hshape, embedSearch]
  rw [if_pos (by
    rw [show ('/' :: ('e' :: 'm' :: 'b' :: 'e' :: 'd' :: '/' :: ids)) =
      "/embed/".data ++ ids from rfl]
    exact listStarts_append_self _ _)]
  have hdrop : ('/' :: ('e' :: 'm' :: 'b' :: 'e' :: 'd' :: '/' :: ids)).drop 7 = ids := rfl
  rw [hdrop, takeWhile_all_true h, if_pos hlen]

/-- A bare 11-character class token is its own leftmost match. -/
theorem findRun11_exact (ids : List Char) (h : ∀ c ∈ ids, vidChar c = true)
    (hlen : ids.length = 11) : findRun11 ids = some ids := by
  cases ids with
  | nil => simp at hlen
  | cons c cs =>
    have htake : (c :: cs).take 11 = c :: cs := by
      rw [show (11 : Nat) = (c :: cs).length from hlen.symm, List.take_length]
    rw [findRun11, htake]
    rw [if_pos (by
      rw [Bool.and_eq_true]
      refine And.intro ?_ ?_
      · rw [hlen]
        rfl
      · rw [List.all_eq_true]
        exact h)]

theorem splitAtFirst_none {p : Char → Bool} {l : List Char}
    (h : ∀ c ∈ l, p c = false) : splitAtFirst p l = (l, []) := by
  unfold splitAtFirst
  rw [takeWhile_all_true fun c hc => by simp [h c hc],
    dropWhile_all_true fun c hc => by simp [h c hc]]

theorem no_char_in_append {d : Char} {pre ids : List Char}
    (hpre : ∀ c ∈ pre, (c == d) = false) (hd : vidChar d = false)
    (h : ∀ c ∈ ids, vidChar c = true) : ∀ c ∈ pre ++ ids, (c == d) = false := by
  intro c hc
  rcases List.mem_append.1 hc with hc | hc
  · exact hpre c hc
  · exact vidChar_ne c d (h c hc) hd

theorem stripScheme_https (rest : List Char) :
    stripScheme ("https:".data ++ rest) = rest := by
  unfold stripScheme
  have h1 : splitAtFirst (fun c => c == ':') ("https:".data ++ rest) =
      ("https".data, ':' :: rest) := by
    rw [show "https:".data ++ rest = "https".data ++ (':' :: rest) from rfl]
    rw [splitAtFirst_append_none _ (by decide)]
    simp [List.takeWhile, List.dropWhile]
  rw [h1, show ("https".data : List Char) = ['h', 't', 't', 'p', 's'] from rfl]
  dsimp only
  rw [if_pos (by decide)]

theorem stripScheme_nocolon {l : List Char} (h : ∀ c ∈ l, (c == ':') = false) :
    stripScheme l = l := by
  unfold stripScheme
  rw [splitAtFirst_none h]
  cases l with
  | nil => rfl
  | cons c cs => rfl

theorem splitNetloc_host (host rest : List Char)
    (hh : ∀ c ∈ host, netlocDelim c = false) :
    splitNetloc ('/' :: '/' :: (host ++ '/' :: rest)) = (host, '/' :: rest) := by
  unfold splitNetloc
  rw [if_pos (by
    rw [show ('/' :: '/' :: (host ++ '/' :: rest)) =
      "//".data ++ (host ++ '/' :: rest) from rfl]
    exact listStarts_append_self _ _)]
  rw [show ('/' :: '/' :: (host ++ '/' :: rest)).drop 2 = host ++ '/' :: rest from rfl]
  rw [splitAtFirst_append_none _ hh]
  simp [List.takeWhile, List.dropWhile, netlocDelim]

theorem splitNetloc_no_slashes {l : List Char} (h : listStarts "//".data l = false) :
    splitNetloc l = ([], l) := by
  unfold splitNetloc
  rw [h]
  rfl

/-- Shape 1: short-link URLs. -/
theorem urlparse_youtu_be (ids : List Char) (h : ∀ c ∈ ids, vidChar c = true) :
    urlparseList ("https://youtu.be/".data ++ ids) =
      ⟨"youtu.be".data, '/' :: ids, []⟩ := by
  unfold urlparseList
  rw [show "https://youtu.be/".data ++ ids =
    "https:".data ++ ("//youtu.be/".data ++ ids) from rfl, stripScheme_https]
  rw [show "//youtu.be/".data ++ ids =
    '/' :: '/' :: ("youtu.be".data ++ '/' :: ids) from rfl]
  rw [splitNetloc_host _ _ (by decide)]
  dsimp only
  have hfrag : splitAtFirst (fun c => c == '#') ('/' :: ids) = ('/' :: ids, []) :=
    splitAtFirst_none (by
      intro c hc
      rcases List.mem_cons.1 hc with rfl | hc
      · decide
      · exact vidChar_ne c '#' (h c hc) (by decide))
  rw [hfrag]
  dsimp only
  have hq : splitAtFirst (fun c => c == '?') ('/' :: ids) = ('/' :: ids, []) :=
    splitAtFirst_none (by
      intro c hc
      rcases List.mem_cons.1 hc with rfl | hc
      · decide
      · exact vidChar_ne c '?' (h c hc) (by decide))
  rw [hq]
  dsimp only
  rw [pathNoParams_id (by
    intro c hc
    rcases List.mem_cons.1 hc with rfl | hc
    · decide
    · exact vidChar_ne c ';' (h c hc) (by decide))]

/-- Shape 2: canonical watch URLs. -/
theorem urlparse_watch (ids : List Char) (h : ∀ c ∈ ids, vidChar c = true) :
    urlparseList ("https://www.youtube.com/watch?v=".data ++ ids) =
      ⟨"www.youtube.com".data, "/watch".data, 'v' :: '=' :: ids⟩ := by
  unfold urlparseList
  rw [show "https://www.youtube.com/watch?v=".data ++ ids =
    "https:".data ++ ("//www.youtube.com/watch?v=".data ++ ids) from rfl,
    stripScheme_https]
  rw [show "//www.youtube.com/watch?v=".data ++ ids =
    '/' :: '/' :: ("www.youtube.com".data ++ '/' :: ("watch?v=".data ++ ids)) from rfl]
  rw [splitNetloc_host _ _ (by decide)]
  dsimp only
  have hfrag : splitAtFirst (fun c => c == '#')
      ('/' :: ("watch?v=".data ++ ids)) = ('/' :: ("watch?v=".data ++ ids), []) :=
    splitAtFirst_none (by
      intro c hc
      rcases List.mem_cons.1 hc with rfl | hc
      · decide
      · exact no_char_in_append (by decide) (by decide) h c hc)
  rw [hfrag]
  dsimp only
  have hq : splitAtFirst (fun c => c == '?') ('/' :: ("watch?v=".data ++ ids)) =
      ("/watch".data, '?' :: ('v' :: '=' :: ids)) := by
    rw [show ('/' :: ("watch?v=".data ++ ids)) =
      "/watch".data ++ ('?' :: ('v' :: '=' :: ids)) from rfl]
    rw [splitAtFirst_append_none _ (by decide)]
    simp [List.takeWhile, List.dropWhile]
  rw [hq]
  dsimp only
  rw [show pathNoParams "/watch".data = "/watch".data from by decide]

/-- Shape 3: embed URLs. -/
theorem urlparse_embed (ids : List Char) (h : ∀ c ∈ ids, vidChar c = true) :
    urlparseList ("https://www.youtube.com/embed/".data ++ ids) =
      ⟨"www.youtube.com".data, "/embed/".data ++ ids, []⟩ := by
  unfold urlparseList
  rw [show "https://www.youtube.com/embed/".data ++ ids =
    "https:".data ++ ("//www.youtube.com/embed/".data ++ ids) from rfl,
    stripScheme_https]
  rw [show "//www.youtube.com/embed/".data ++ ids =
    '/' :: '/' :: ("www.youtube.com".data ++ '/' :: ("embed/".data ++ ids)) from rfl]
  rw [splitNetloc_host _ _ (by decide)]
  dsimp only
  have hfrag : splitAtFirst (fun c => c == '#')
      ('/' :: ("embed/".data ++ ids)) = ('/' :: ("embed/".data ++ ids), []) :=
    splitAtFirst_none (by
      intro c hc
      rcases List.mem_cons.1 hc with rfl | hc
      · decide
      · exact no_char_in_append (by decide) (by decide) h c hc)
  rw [hfrag]
  dsimp only
  have hq : splitAtFirst (fun c => c == '?')
      ('/' :: ("embed/".data ++ ids)) = ('/' :: ("embed/".data ++ ids), []) :=
    splitAtFirst_none (by
      intro c hc
      rcases List.mem_cons.1 hc with rfl | hc
      · decide
      · exact no_char_in_append (by decide) (by decide) h c hc)
  rw [hq]
  dsimp only
  rw [show ('/' :: ("embed/".data ++ ids)) = "/embed/".data ++ ids from rfl]
  rw [pathNoParams_id (by
    intro c hc
    exact no_char_in_append (by decide) (by decide) h c hc)]

/-- Shape 4: bare id tokens. -/
theorem urlparse_bare (ids : List Char) (h : ∀ c ∈ ids, vidChar c = true) :
    urlparseList ids = ⟨[], ids, []⟩ := by
  unfold urlparseList
  rw [stripScheme_nocolon fun c hc => vidChar_ne c ':' (h c hc) (by decide)]
  have hnl : splitNetloc ids = ([], ids) := by
    cases hids : ids with
    | nil => rfl
    | cons c cs =>
      refine splitNetloc_no_slashes ?_
      have hc : vidChar c = true := h c (by simp [hids])
      show listStarts ('/' :: ['/']) (c :: cs) = false
      rw [listStarts, vidChar_beq_false' c '/' hc (by decide)]
      rfl
  rw [hnl]
  dsimp only
  rw [splitAtFirst_none fun c hc => vidChar_ne c '#' (h c hc) (by decide)]
  dsimp only
  rw [splitAtFirst_none fun c hc => vidChar_ne c '?' (h c hc) (by decide)]
  dsimp only
  rw [pathNoParams_id fun c hc => vidChar_ne c ';' (h c hc) (by decide)]

/-! ### `_extract_video_id` on the four supported shapes -/

/-- Decidable well-formedness of an 11-character video id. -/
def validIdB (s : String) : Bool :=
  s.data.length == 11 && s.data.all vidChar

theorem validIdB_parts {s : String} (h : validIdB s = true) :
    s.data.length = 11 ∧ ∀ c ∈ s.data, vidChar c = true := by
  unfold validIdB at h
  rw [Bool.and_eq_true] at h
  obtain ⟨h1, h2⟩ := h
  exact ⟨by simpa using h1, by rw [List.all_eq_true] at h2; exact h2⟩

theorem data_append (a b : String) : (a ++ b).data = a.data ++ b.data := by
  cases a
  cases b
  rfl

theorem pyStrip_slash_id (ids : List Char) (h : ∀ c ∈ ids, vidChar c = true) :
    pyStrip '/' ('/' :: ids) = ids := by
  unfold pyStrip
  have h1 : ('/' :: ids).dropWhile (· == '/') = ids := by
    simp only [List.dropWhile_cons]
    rw [if_pos (by decide)]
    exact dropWhile_all_false fun c hc => vidChar_ne c '/' (h c hc) (by decide)
  rw [h1]
  rw [dropWhile_all_false fun c hc => by
    rw [List.mem_reverse] at hc
    exact vidChar_ne c '/' (h c hc) (by decide)]
  exact List.reverse_reverse ids

theorem evid_shape_short (id : String) (h : validIdB id = true) :
    extract_video_id ("https://youtu.be/" ++ id) = id := by
  obtain ⟨hlen, hch⟩ := validIdB_parts h
  unfold extract_video_id
  rw [data_append, urlparse_youtu_be id.data hch]
  dsimp only
  rw [if_pos (by decide), pyStrip_slash_id id.data hch]
  rfl

theorem evid_shape_watch (id : String) (h : validIdB id = true) :
    extract_video_id ("https://www.youtube.com/watch?v=" ++ id) = id := by
  obtain ⟨hlen, hch⟩ := validIdB_parts h
  have hne : id.data ≠ [] := by
    intro hh
    rw [hh] at hlen
    cases hlen
  unfold extract_video_id
  rw [data_append, urlparse_watch id.data hch]
  dsimp only
  rw [if_neg (by decide), if_pos (by decide), parseQsFirst_v id.data hch hne]
  rfl

theorem evid_shape_embed (id : String) (h : validIdB id = true) :
    extract_video_id ("https://www.youtube.com/embed/" ++ id) = id := by
  obtain ⟨hlen, hch⟩ := validIdB_parts h
  unfold extract_video_id
  rw [data_append, urlparse_embed id.data hch]
  dsimp only
  rw [if_neg (by decide), if_pos (by decide), parseQsFirst_empty,
    embedSearch_embed id.data hch (by omega)]
  rfl

theorem evid_shape_bare (id : String) (h : validIdB id = true) :
    extract_video_id id = id := by
  obtain ⟨hlen, hch⟩ := validIdB_parts h
  unfold extract_video_id
  rw [urlparse_bare id.data hch]
  dsimp only
  rw [if_neg (by decide), if_neg (by decide), findRun11_exact id.data hch hlen]
  rfl

theorem evid_no_shape (s : String)
    (h1 : endsWithList "youtu.be".data (urlparseList s.data).netloc = false)
    (h2 : listContains "youtube.com".data (urlparseList s.data).netloc = false)
    (h3 : findRun11 s.data = none) : extract_video_id s = "" := by
  unfold extract_video_id
  rw [if_neg (by simp [h1]), if_neg (by simp [h2]), h3]

/-! ### Lemmas for credential resolution -/

theorem indexOf_append_self {pre : List String} (rest : List String) (x : String)
    (h : x ∉ pre) : (pre ++ x :: rest).indexOf x = pre.length := by
  induction pre with
  | nil => simp [List.indexOf_cons]
  | cons a as ih =>
    have hax : (a == x) = false := by
      simp only [beq_eq_false_iff_ne]
      intro hh
      exact h (by simp [hh])
    simp only [List.cons_append, List.indexOf_cons, hax, cond_false]
    rw [ih fun hh => h (by simp [hh])]
    simp

theorem get_after_flag (pre post : List String) (x v : String)
    (h : pre.length + 1 < (pre ++ x :: v :: post).length) :
    (pre ++ x :: v :: post).get ⟨pre.length + 1, h⟩ = v := by
  rw [List.get_eq_getElem]
  rw [List.getElem_append_right (by simp : pre.length ≤ pre.length + 1)]
  simp

/-! ## The claims -/

/-- C8: every truncated description in a list-context record (video, artist,
playlist-in-list) is at most 200 characters and a character-for-character
prefix of the upstream description; the single-playlist detail record of
`get_playlist_details` carries its description untruncated. -/
theorem C8_description_truncation :
    (∀ item : RawVideo,
      (pack_video item).description = pyTake200 (item.description.getD "") ∧
      ((pack_video item).description).length ≤ 200 ∧
      ∃ rest, item.description.getD "" = (pack_video item).description ++ rest) ∧
    (∀ item : RawArtist,
      (pack_artist item).description = pyTake200 (item.description.getD "") ∧
      ((pack_artist item).description).length ≤ 200 ∧
      ∃ rest, item.description.getD "" = (pack_artist item).description ++ rest) ∧
    (∀ p : RawPlaylist,
      (pack_playlist_trending p).description = pyTake200 p.description ∧
      ((pack_playlist_trending p).description).length ≤ 200 ∧
      ∃ rest, p.description = (pack_playlist_trending p).description ++ rest) ∧
    (∀ p : RawPlaylist,
      (pack_playlist_search p).description = pyTake200 p.description ∧
      ((pack_playlist_search p).description).length ≤ 200 ∧
      ∃ rest, p.description = (pack_playlist_search p).description ++ rest) ∧
    (∀ (pid : String) (info : RawPlaylist) (vids : List VideoRecord),
      (pack_playlist_details pid info vids).description = info.description) := by
  have hlen : ∀ s : String, (pyTake200 s).length ≤ 200 := fun s => by
    show (s.data.take 200).length ≤ 200
    rw [List.length_take]
    exact Nat.min_le_left _ _
  have hpre : ∀ s : String, ∃ rest, s = pyTake200 s ++ rest := fun s => by
    refine ⟨⟨s.data.drop 200⟩, ?_⟩
    show s = (⟨s.data.take 200 ++ s.data.drop 200⟩ : String)
    rw [List.take_append_drop]
  exact ⟨fun item => ⟨rfl, hlen _, hpre _⟩,
    fun item => ⟨rfl, hlen _, hpre _⟩,
    fun p => ⟨rfl, hlen _, hpre _⟩,
    fun p => ⟨rfl, hlen _, hpre _⟩,
    fun pid info vids => rfl⟩

/-- C10: when the initial search of `search_videos` yields no items, the
tool returns the success-shaped JSON string
`{"error": "No videos found", "total_returned": 0, "videos": []}` with no
`"ERROR: "` prefix, so this one empty-result case is not distinguishable
from success by the prefix convention. -/
theorem C10_search_videos_empty_success_shape :
    ∀ (cached : Option String) (argv : List String) (env : Option String)
      (query orderArg : String)
      (det : List String → Except String (List RawVideo))
      (kp : String × Option String),
      get_yt_api_key cached argv env = .ok kp →
      search_videos cached argv env query orderArg (.ok []) det =
        noVideosFoundJson ∧
      strStarts "ERROR: " noVideosFoundJson = false ∧
      noVideosFoundJson =
        "\x7b\"error\": \"No videos found\", \"total_returned\": 0, \"videos\": []\x7d" := by
  intro cached argv env query orderArg det kp hkey
  refine ⟨?_, by decide, rfl⟩
  unfold search_videos
  rw [hkey]
  rfl

/-- Witness for C10 at a concrete resolved-credential state. -/
theorem C10_search_videos_empty_success_shape_witness :
    search_videos (some "KEY") [] none "q" "viewCount"
      (.ok []) (fun _ => .ok []) = noVideosFoundJson :=
  (C10_search_videos_empty_success_shape (some "KEY") [] none "q" "viewCount"
    (fun _ => .ok []) ("KEY", some "KEY") rfl).1

/-- C4: each of the four supported input shapes (short link, watch URL with
`v` parameter, embed path, bare 11-character token) resolves to the same
canonical id, patterns tried in priority order; input matching no shape
yields the empty string (and the embedding is total, so nothing is raised);
`"https://youtu.be/dQw4w9WgXcQ"` resolves to `"dQw4w9WgXcQ"`. -/
theorem C4_resolve_video_id :
    (∀ id : String, validIdB id = true →
      extract_video_id ("https://youtu.be/" ++ id) = id ∧
      extract_video_id ("https://www.youtube.com/watch?v=" ++ id) = id ∧
      extract_video_id ("https://www.youtube.com/embed/" ++ id) = id ∧
      extract_video_id id = id) ∧
    (∀ s : String,
      endsWithList "youtu.be".data (urlparseList s.data).netloc = false →
      listContains "youtube.com".data (urlparseList s.data).netloc = false →
      findRun11 s.data = none →
      extract_video_id s = "") ∧
    extract_video_id "https://youtu.be/dQw4w9WgXcQ" = "dQw4w9WgXcQ" := by
  refine ⟨fun id h => ⟨evid_shape_short id h, evid_shape_watch id h,
    evid_shape_embed id h, evid_shape_bare id h⟩, evid_no_shape, by decide⟩

/-- Witness for C4: the documented scenario id and an unparsable input. -/
theorem C4_resolve_video_id_witness :
    extract_video_id ("https://youtu.be/" ++ "dQw4w9WgXcQ") = "dQw4w9WgXcQ" ∧
    extract_video_id "zz@@" = "" :=
  ⟨(C4_resolve_video_id.1 "dQw4w9WgXcQ" (by decide)).1,
    C4_resolve_video_id.2.1 "zz@@" (by decide) (by decide) (by decide)⟩

/-- C6: credential resolution reads the `--yt-key` flag first (failing when
the flag is last, even if the environment variable is set), then the
environment variable; with neither, startup exits with code 1 before the
server starts; a cached key is returned as-is thereafter. -/
theorem C6_credential_resolution :
    (∀ (pre post : List String) (v : String) (env : Option String),
      "--yt-key" ∉ pre →
      get_yt_api_key none (pre ++ "--yt-key" :: v :: post) env = .ok (v, some v)) ∧
    (∀ (pre : List String) (env : Option String),
      "--yt-key" ∉ pre →
      get_yt_api_key none (pre ++ ["--yt-key"]) env =
        .error "--yt-key argument provided but no key value followed it") ∧
    (∀ (argv : List String) (k : String),
      "--yt-key" ∉ argv → k ≠ "" →
      get_yt_api_key none argv (some k) = .ok (k, some k)) ∧
    (∀ (argv : List String) (env : Option String),
      "--yt-key" ∉ argv → (env = none ∨ env = some "") →
      (∃ msg, get_yt_api_key none argv env = .error msg) ∧
      mainStartup argv env = .exited 1) ∧
    (∀ (k : String) (argv : List String) (env : Option String),
      get_yt_api_key (some k) argv env = .ok (k, some k)) := by
  refine ⟨?_, ?_, ?_, ?_, ?_⟩
  · intro pre post v env hpre
    unfold get_yt_api_key
    dsimp only
    have hmem : "--yt-key" ∈ pre ++ "--yt-key" :: v :: post := by simp
    rw [if_pos (List.elem_eq_true_of_mem hmem)]
    rw [indexOf_append_self (v :: post) "--yt-key" hpre]
    have hlt : pre.length + 1 < (pre ++ "--yt-key" :: v :: post).length := by
      simp only [List.length_append, List.length_cons]
      omega
    rw [dif_pos hlt, get_after_flag pre post "--yt-key" v hlt]
  · intro pre env hpre
    unfold get_yt_api_key
    dsimp only
    have hmem : "--yt-key" ∈ pre ++ ["--yt-key"] := by simp
    rw [if_pos (List.elem_eq_true_of_mem hmem)]
    rw [indexOf_append_self [] "--yt-key" hpre]
    have hnlt : ¬pre.length + 1 < (pre ++ ["--yt-key"]).length := by
      simp
    rw [dif_neg hnlt]
  · intro argv k hargv hk
    unfold get_yt_api_key
    dsimp only
    rw [if_neg (by simpa using hargv)]
    have hkb : (k == "") = false := by
      simp only [beq_eq_false_iff_ne]
      exact hk
    simp [hkb]
  · intro argv env hargv henv
    have herr : ∃ msg, get_yt_api_key none argv env = .error msg := by
      unfold get_yt_api_key
      dsimp only
      rw [if_neg (by simpa using hargv)]
      rcases henv with rfl | rfl
      · exact ⟨_, rfl⟩
      · exact ⟨_, rfl⟩
    refine ⟨herr, ?_⟩
    obtain ⟨msg, hmsg⟩ := herr
    unfold mainStartup
    rw [hmsg]
  · intro k argv env
    rfl

/-- Witness for C6 at concrete argument vectors. -/
theorem C6_credential_resolution_witness :
    get_yt_api_key none (["prog"] ++ "--yt-key" :: "SECRET" :: []) (some "ENVKEY") =
      .ok ("SECRET", some "SECRET") ∧
    get_yt_api_key none (["prog"] ++ ["--yt-key"]) (some "ENVKEY") =
      .error "--yt-key argument provided but no key value followed it" ∧
    get_yt_api_key none ["prog"] (some "ENVKEY") = .ok ("ENVKEY", some "ENVKEY") ∧
    mainStartup ["prog"] none = .exited 1 ∧
    get_yt_api_key (some "CACHED") ["prog", "--yt-key", "OTHER"] (some "ENVKEY") =
      .ok ("CACHED", some "CACHED") :=
  ⟨C6_credential_resolution.1 ["prog"] [] "SECRET" (some "ENVKEY") (by decide),
    C6_credential_resolution.2.1 ["prog"] (some "ENVKEY") (by decide),
    C6_credential_resolution.2.2.1 ["prog"] "ENVKEY" (by decide) (by decide),
    (C6_credential_resolution.2.2.2.1 ["prog"] none (by decide) (Or.inl rfl)).2,
    C6_credential_resolution.2.2.2.2 "CACHED" ["prog", "--yt-key", "OTHER"]
      (some "ENVKEY")⟩

/-- C7 counterexample: a `youtube.com` URL matching none of the path
patterns is classified as none of the documented identifier kinds — the
resolver falls off the end of the branch and yields `None`. -/
theorem C7_counterexample :
    extract_channel_id "https://www.youtube.com/feed/trending" = none := by
  decide

/-- C7 (amended): the handle inputs `"@name"`, `/c/name`, `/user/name`,
`/@name` all yield `("username", "name")`, a `/channel/<id>` URL yields
`("id", <id>)`, inputs without the `youtube.com` substring are classified
by their leading `@` or passed through as ids — but a `youtube.com` input
matching none of the three path patterns yields no classification at
all (`none`). -/
theorem C7_resolve_channel_reference :
    extract_channel_id "@name" = some ("username", "name") ∧
    extract_channel_id "https://www.youtube.com/c/name" = some ("username", "name") ∧
    extract_channel_id "https://www.youtube.com/user/name" = some ("username", "name") ∧
    extract_channel_id "https://www.youtube.com/@name" = some ("username", "name") ∧
    extract_channel_id "https://www.youtube.com/channel/UCabc123" =
      some ("id", "UCabc123") ∧
    (∀ (s : String) (rest : List Char),
      listContains "youtube.com".data s.data = false →
      s.data = '@' :: rest →
      extract_channel_id s = some ("username", rest.asString)) ∧
    (∀ s : String,
      listContains "youtube.com".data s.data = false →
      listStarts "@".data s.data = false →
      extract_channel_id s = some ("id", s)) ∧
    (∀ s : String,
      listContains "youtube.com".data s.data = true →
      listContains "/channel/".data (urlparseList s.data).path = false →
      listContains "/@".data (urlparseList s.data).path = false →
      listContains "/c/".data (urlparseList s.data).path = false →
      listContains "/user/".data (urlparseList s.data).path = false →
      extract_channel_id s = none) := by
  refine ⟨by decide, by decide, by decide, by decide, by decide, ?_, ?_, ?_⟩
  · intro s rest hyt hdata
    unfold extract_channel_id
    rw [if_neg (by simp [hyt])]
    rw [if_pos (by rw [hdata]; simp [listStarts])]
    rw [hdata]
    rfl
  · intro s hyt hat
    unfold extract_channel_id
    rw [if_neg (by simp [hyt]), if_neg (by simp [hat])]
  · intro s hyt h1 h2 h3 h4
    unfold extract_channel_id
    rw [if_pos hyt, if_neg (by simp [h1]), if_neg (by simp [h2]),
      if_neg (by simp [h3, h4])]

/-- Witness for C7 at concrete inputs for the conditional conjuncts. -/
theorem C7_resolve_channel_reference_witness :
    extract_channel_id "@SomeHandle" = some ("username", "SomeHandle") ∧
    extract_channel_id "UCxyz" = some ("id", "UCxyz") ∧
    extract_channel_id "https://www.youtube.com/feed/trending" = none :=
  ⟨C7_resolve_channel_reference.2.2.2.2.2.1 "@SomeHandle" "SomeHandle".data
      (by decide) (by decide),
    C7_resolve_channel_reference.2.2.2.2.2.2.1 "UCxyz" (by decide) (by decide),
    C7_resolve_channel_reference.2.2.2.2.2.2.2 "https://www.youtube.com/feed/trending"
      (by decide) (by decide) (by decide) (by decide) (by decide)⟩

/-- C5: `get_channel_videos` sorts the accumulated list post hoc — stable
descending numeric sort on `viewCount` for `order="viewCount"`, on
`likeCount` for `order="rating"`, stable descending lexicographic sort on
`publishedAt` for `order="date"` (lexicographic equals chronological for
fixed-shape ISO-8601 timestamps) — and the rendered output list is the
sorted list truncated to the cap. -/
theorem C5_channel_videos_sort :
    (∀ videos : List VideoRecord,
      (sortVideos "viewCount" videos).Pairwise
        (fun a b => natLe b.viewCount a.viewCount = true) ∧
      (sortVideos "viewCount" videos).Perm videos ∧
      ∀ v : Nat, (sortVideos "viewCount" videos).filter (fun x => x.viewCount == v) =
        videos.filter (fun x => x.viewCount == v)) ∧
    (∀ videos : List VideoRecord,
      (sortVideos "rating" videos).Pairwise
        (fun a b => natLe b.likeCount a.likeCount = true) ∧
      (sortVideos "rating" videos).Perm videos ∧
      ∀ v : Nat, (sortVideos "rating" videos).filter (fun x => x.likeCount == v) =
        videos.filter (fun x => x.likeCount == v)) ∧
    (∀ videos : List VideoRecord,
      (sortVideos "date" videos).Pairwise
        (fun a b => pyStrLe (b.publishedAt.getD "") (a.publishedAt.getD "") = true) ∧
      (sortVideos "date" videos).Perm videos ∧
      ∀ v : String, (sortVideos "date" videos).filter
          (fun x => x.publishedAt.getD "" == v) =
        videos.filter (fun x => x.publishedAt.getD "" == v)) ∧
    (∀ a b : Timestamp, validTS a → validTS b →
      (strLtB (renderISO a).data (renderISO b).data = true ↔ chronoLt a b)) ∧
    (∀ (cached : Option String) (argv : List String) (env : Option String)
      (channelInput orderArg : String) (maxV : Nat)
      (handleLookup : String → Except String (List String))
      (metaLookup : String → Except String (Option ChanInfo))
      (pages : Nat → Nat → Except String PlaylistItemsPage)
      (det : Nat → List String → Except String (List RawVideo))
      (fuel : Nat) (cid : String) (info : ChanInfo)
      (vids : List VideoRecord) (reqs : Nat) (kp : String × Option String),
      get_yt_api_key cached argv env = .ok kp →
      extract_channel_id channelInput = some ("id", cid) →
      metaLookup cid = .ok (some info) →
      uploadsLoop pages det maxV fuel 0 [] = some (.ok (vids, reqs)) →
      get_channel_videos cached argv env channelInput orderArg maxV
        handleLookup metaLookup pages det fuel =
        some (renderChannelResult cid info orderArg
          (sortVideos orderArg vids) maxV)) := by
  have hview : ∀ videos : List VideoRecord, sortVideos "viewCount" videos =
      sortDescBy natLe (fun v => v.viewCount) videos := fun videos => by
    unfold sortVideos
    rw [if_pos (by decide)]
  have hrate : ∀ videos : List VideoRecord, sortVideos "rating" videos =
      sortDescBy natLe (fun v => v.likeCount) videos := fun videos => by
    unfold sortVideos
    rw [if_neg (by decide), if_neg (by decide), if_pos (by decide)]
  have hdate : ∀ videos : List VideoRecord, sortVideos "date" videos =
      sortDescBy pyStrLe (fun v => v.publishedAt.getD "") videos := fun videos => by
    unfold sortVideos
    rw [if_neg (by decide), if_pos (by decide)]
  refine ⟨?_, ?_, ?_, renderISO_lt_iff, ?_⟩
  · intro videos
    rw [hview]
    exact ⟨sortDescBy_sorted natLe _ natLe_total natLe_trans videos,
      sortDescBy_perm natLe _ videos,
      fun v => sortDescBy_filter natLe _ natLe_refl v videos⟩
  · intro videos
    rw [hrate]
    exact ⟨sortDescBy_sorted natLe _ natLe_total natLe_trans videos,
      sortDescBy_perm natLe _ videos,
      fun v => sortDescBy_filter natLe _ natLe_refl v videos⟩
  · intro videos
    rw [hdate]
    exact ⟨sortDescBy_sorted pyStrLe _ pyStrLe_total pyStrLe_trans videos,
      sortDescBy_perm pyStrLe _ videos,
      fun v => sortDescBy_filter pyStrLe _ pyStrLe_refl v videos⟩
  · intro cached argv env channelInput orderArg maxV handleLookup metaLookup pages det
      fuel cid info vids reqs kp hkey hextract hmeta hloop
    unfold get_channel_videos
    rw [hkey, hextract]
    dsimp only
    rw [if_neg (by decide)]
    unfold channel_videos_with_id
    rw [hmeta]
    dsimp only
    rw [hloop]

/-- Witness for C5: a concrete chronological comparison through the
rendered strings, and concrete sort instances. -/
theorem C5_channel_videos_sort_witness :
    strLtB (renderISO ⟨2023, 12, 31, 23, 59, 59⟩).data
      (renderISO ⟨2024, 1, 1, 0, 0, 0⟩).data = true ∧
    (sortVideos "viewCount" ([] : List VideoRecord)).Perm [] :=
  ⟨(C5_channel_videos_sort.2.2.2.1 ⟨2023, 12, 31, 23, 59, 59⟩ ⟨2024, 1, 1, 0, 0, 0⟩
      (by decide) (by decide)).mpr (Or.inl (by decide)),
    (C5_channel_videos_sort.1 []).2.1⟩

/-- A raw comment carrying only an id, for concrete scenarios. -/
def mkRawComment (i : String) : RawComment :=
  ⟨some i, none, none, none, none, none⟩

/-- One thread with a top-level comment and two replies. -/
def smallThread : Thread :=
  ⟨some (mkRawComment "top"), [mkRawComment "r1", mkRawComment "r2"]⟩

/-- Upstream stream serving one single-thread page with no continuation. -/
def smallThreadPages : Nat → Except String CommentsPage :=
  fun _ => .ok ⟨[smallThread], none⟩

/-- The flattened records of that page under cap 1. -/
def smallThreadItems : List CommentRecord :=
  addThreads 1 [] [smallThread]

/-- C1 counterexample: `fetch_comments` with cap 1 on a single thread with
two replies returns 3 records — the aggregator does not return at most `N`
records, and it requests fixed-size pages rather than
`min(pageSize, remaining)`. -/
theorem C1_counterexample :
    fetch_comments (some "KEY") [] none "https://youtu.be/dQw4w9WgXcQ"
      "relevance" 1 smallThreadPages 2 =
      some (renderCommentsResult "dQw4w9WgXcQ" "relevance" smallThreadItems) ∧
    smallThreadItems.length = 3 :=
  ⟨rfl, by decide⟩

/-- C1 (amended): the shared uploads pagination of `get_channel_videos` and
`get_playlist_details` returns at most `N` records under an honest
upstream, performs exactly `⌈N/50⌉` page requests when pages come back full
with cursors, and — like the comments loop — issues no page request once
the accumulator has reached the cap (never over-fetches); `fetch_comments`
has a fixed page size of 100 and may exceed the cap (see the
counterexample). -/
theorem C1_pagination_caps :
    (∀ (pages : Nat → Except String CommentsPage) (maxC fuel k : Nat)
      (acc : List CommentRecord), maxC ≤ acc.length → 0 < fuel →
      commentsLoop pages maxC fuel k acc = some (.ok (acc, k))) ∧
    (∀ (pages : Nat → Nat → Except String PlaylistItemsPage)
      (det : Nat → List String → Except String (List RawVideo))
      (maxV fuel k : Nat) (acc : List VideoRecord), maxV ≤ acc.length → 0 < fuel →
      uploadsLoop pages det maxV fuel k acc = some (.ok (acc, k))) ∧
    (∀ (pages : Nat → Nat → Except String PlaylistItemsPage)
      (det : Nat → List String → Except String (List RawVideo)) (maxV : Nat),
      (∀ k m pg, pages k m = .ok pg → pg.videoIds.length ≤ m) →
      (∀ k ids raws, det k ids = .ok raws → raws.length ≤ ids.length) →
      ∀ fuel vids reqs,
        uploadsLoop pages det maxV fuel 0 [] = some (.ok (vids, reqs)) →
        vids.length ≤ maxV) ∧
    (∀ (pages : Nat → Nat → Except String PlaylistItemsPage)
      (det : Nat → List String → Except String (List RawVideo)) (maxV : Nat),
      (∀ k m, ∃ pg, pages k m = .ok pg ∧ pg.videoIds.length = m ∧
        pg.nextPageToken ≠ none) →
      (∀ k ids, ∃ raws, det k ids = .ok raws ∧ raws.length = ids.length) →
      (uploadsLoop pages det maxV ((maxV + 49) / 50 + 1) 0 []).map
        (Except.map fun p => (p.1.length, p.2)) =
        some (.ok (maxV, (maxV + 49) / 50))) ∧
    (∀ (cached : Option String) (argv : List String) (env : Option String)
      (playlistUrl : String) (maxVideos : Nat)
      (plMeta : String → Except String (Option RawPlaylist))
      (pages : Nat → Nat → Except String PlaylistItemsPage)
      (det : Nat → List String → Except String (List RawVideo))
      (fuel : Nat) (kp : String × Option String) (info : RawPlaylist)
      (vids : List VideoRecord) (reqs : Nat),
      get_yt_api_key cached argv env = .ok kp →
      plMeta (extract_playlist_id playlistUrl) = .ok (some info) →
      uploadsLoop pages det maxVideos fuel 0 [] = some (.ok (vids, reqs)) →
      get_playlist_details cached argv env playlistUrl maxVideos plMeta pages det
        fuel = some (renderPlaylistDetails
          (pack_playlist_details (extract_playlist_id playlistUrl) info vids))) := by
  refine ⟨commentsLoop_at_cap, uploadsLoop_at_cap, ?_, ?_, ?_⟩
  · intro pages det maxV hp hd fuel vids reqs h
    exact uploadsLoop_le pages det maxV hp hd fuel 0 [] vids reqs (by simp) h
  · intro pages det maxV hp hd
    obtain ⟨vids, hv, hl⟩ := uploadsLoop_full pages det maxV hp hd
      ((maxV + 49) / 50 + 1) 0 [] (by simp) (by simp)
    rw [hv]
    simp [Except.map, hl]
  · intro cached argv env playlistUrl maxVideos plMeta pages det fuel kp info vids
      reqs hkey hmeta hloop
    unfold get_playlist_details
    rw [hkey]
    dsimp only
    rw [hmeta]
    dsimp only
    rw [hloop]

/-- Full-page upstream stream for the C1 witness. -/
def fullPages : Nat → Nat → Except String PlaylistItemsPage :=
  fun k req => .ok ⟨(List.range req).map (fun i => toString (k * 100 + i)), some "t"⟩

/-- Details oracle resolving every id for the C1 witness. -/
def fullDet : Nat → List String → Except String (List RawVideo) :=
  fun _ ids => .ok (ids.map fun i =>
    ⟨some i, none, none, none, none, none, none, none, none, none, none, none⟩)

/-- Witness for C1: cap 120, full pages of the requested size — exactly
`⌈120/50⌉ = 3` page requests and 120 records. -/
theorem C1_pagination_caps_witness :
    (uploadsLoop fullPages fullDet 120 ((120 + 49) / 50 + 1) 0 []).map
      (Except.map fun p => (p.1.length, p.2)) =
      some (.ok (120, (120 + 49) / 50)) :=
  C1_pagination_caps.2.2.2.1 fullPages fullDet 120
    (fun k m => ⟨⟨(List.range m).map (fun i => toString (k * 100 + i)), some "t"⟩,
      rfl, by simp, by simp⟩)
    (fun k ids => ⟨ids.map fun i =>
      ⟨some i, none, none, none, none, none, none, none, none, none, none, none⟩,
      rfl, by simp⟩)

/-- One thread with a top comment and 20 replies. -/
def bigThread : Thread :=
  ⟨some (mkRawComment "top"), (List.range 20).map fun i => mkRawComment (toString i)⟩

/-- A single page of three 21-record threads. -/
def threeThreadPages : Nat → Except String CommentsPage :=
  fun _ => .ok ⟨[bigThread, bigThread, bigThread], none⟩

/-- What the loop accumulates from that page under cap 50. -/
def threeThreadItems : List CommentRecord :=
  addThreads 50 [] [bigThread, bigThread, bigThread]

/-- C3: with `max=50` on a video with 3 threads of 20 replies each, the
call returns 63 records — the cap check runs only after a whole thread
(top comment and all replies) has been appended and nothing truncates, so
the promised "exactly 50 records with the last thread's replies truncated"
does not hold on the code. -/
theorem C3_cap_check_after_whole_thread :
    fetch_comments (some "KEY") [] none "https://youtu.be/dQw4w9WgXcQ"
      "relevance" 50 threeThreadPages 2 =
      some (renderCommentsResult "dQw4w9WgXcQ" "relevance" threeThreadItems) ∧
    threeThreadItems.length = 63 :=
  ⟨rfl, by decide⟩

theorem listStarts_of_append (a b c : List Char) (h : listStarts a b = true) :
    listStarts a (b ++ c) = true := by
  induction a generalizing b with
  | nil => rfl
  | cons x xs ih =>
    cases b with
    | nil => cases h
    | cons y ys =>
      rw [listStarts, Bool.and_eq_true] at h
      rw [List.cons_append, listStarts, Bool.and_eq_true]
      exact ⟨h.1, ih ys h.2⟩

theorem strStarts_error_of_lit (lit rest : String)
    (h : strStarts "ERROR: " lit = true) :
    strStarts "ERROR: " (lit ++ rest) = true := by
  unfold strStarts at *
  rw [data_append]
  exact listStarts_of_append _ _ _ h

/-- C2: every failure is caught at the tool boundary — each returned string
is either `"ERROR: "`-prefixed or the rendered payload of a fully
successful aggregation; and when the pagination fails mid-flight the call
returns exactly the error string, discarding the records of earlier
successful pages. -/
theorem C2_error_boundary :
    (∀ (cached : Option String) (argv : List String) (env : Option String)
      (videoUrl orderArg : String) (maxC : Nat)
      (pages : Nat → Except String CommentsPage) (fuel : Nat) (s : String),
      fetch_comments cached argv env videoUrl orderArg maxC pages fuel = some s →
      strStarts "ERROR: " s = true ∨
      ∃ items reqs, commentsLoop pages maxC fuel 0 [] = some (.ok (items, reqs)) ∧
        s = renderCommentsResult (extract_video_id videoUrl)
          (if orderArg == "relevance" || orderArg == "time" then orderArg
            else "relevance") items) ∧
    (∀ (cached : Option String) (argv : List String) (env : Option String)
      (channelInput orderArg : String) (maxV : Nat)
      (handleLookup : String → Except String (List String))
      (metaLookup : String → Except String (Option ChanInfo))
      (pages : Nat → Nat → Except String PlaylistItemsPage)
      (det : Nat → List String → Except String (List RawVideo))
      (fuel : Nat) (s : String),
      get_channel_videos cached argv env channelInput orderArg maxV
        handleLookup metaLookup pages det fuel = some s →
      strStarts "ERROR: " s = true ∨
      ∃ cid info vids reqs, metaLookup cid = .ok (some info) ∧
        uploadsLoop pages det maxV fuel 0 [] = some (.ok (vids, reqs)) ∧
        s = renderChannelResult cid info orderArg (sortVideos orderArg vids) maxV) ∧
    (∀ (cached : Option String) (argv : List String) (env : Option String)
      (videoUrl orderArg : String) (maxC : Nat)
      (pages : Nat → Except String CommentsPage) (fuel : Nat)
      (kp : String × Option String) (e : String),
      get_yt_api_key cached argv env = .ok kp →
      extract_video_id videoUrl ≠ "" →
      commentsLoop pages maxC fuel 0 [] = some (.error e) →
      fetch_comments cached argv env videoUrl orderArg maxC pages fuel =
        some ("ERROR: " ++ e)) ∧
    (∀ (cached : Option String) (argv : List String) (env : Option String)
      (channelInput orderArg : String) (maxV : Nat)
      (handleLookup : String → Except String (List String))
      (metaLookup : String → Except String (Option ChanInfo))
      (pages : Nat → Nat → Except String PlaylistItemsPage)
      (det : Nat → List String → Except String (List RawVideo))
      (fuel : Nat) (kp : String × Option String) (cid : String)
      (info : ChanInfo) (e : String),
      get_yt_api_key cached argv env = .ok kp →
      extract_channel_id channelInput = some ("id", cid) →
      metaLookup cid = .ok (some info) →
      uploadsLoop pages det maxV fuel 0 [] = some (.error e) →
      get_channel_videos cached argv env channelInput orderArg maxV
        handleLookup metaLookup pages det fuel = some ("ERROR: " ++ e)) ∧
    (∀ (cached : Option String) (argv : List String) (env : Option String)
      (query orderArg : String) (searchCall : Except String (List String))
      (det : List String → Except String (List RawVideo)),
      strStarts "ERROR: "
          (search_videos cached argv env query orderArg searchCall det) = true ∨
      search_videos cached argv env query orderArg searchCall det =
        noVideosFoundJson ∨
      ∃ ids raws, searchCall = .ok ids ∧ det ids = .ok raws ∧
        search_videos cached argv env query orderArg searchCall det =
          renderSearchResult query orderArg (raws.map pack_video)) ∧
    (∀ (cached : Option String) (argv : List String) (env : Option String)
      (playlistUrl : String) (maxVideos : Nat)
      (plMeta : String → Except String (Option RawPlaylist))
      (pages : Nat → Nat → Except String PlaylistItemsPage)
      (det : Nat → List String → Except String (List RawVideo))
      (fuel : Nat) (s : String),
      get_playlist_details cached argv env playlistUrl maxVideos plMeta pages det
        fuel = some s →
      strStarts "ERROR: " s = true ∨
      ∃ info vids reqs,
        plMeta (extract_playlist_id playlistUrl) = .ok (some info) ∧
        uploadsLoop pages det maxVideos fuel 0 [] = some (.ok (vids, reqs)) ∧
        s = renderPlaylistDetails
          (pack_playlist_details (extract_playlist_id playlistUrl) info vids)) := by
  have hwith : ∀ (channelId orderArg : String) (maxV : Nat)
      (metaLookup : String → Except String (Option ChanInfo))
      (pages : Nat → Nat → Except String PlaylistItemsPage)
      (det : Nat → List String → Except String (List RawVideo))
      (fuel : Nat) (s : String),
      channel_videos_with_id channelId orderArg maxV metaLookup pages det fuel =
        some s →
      strStarts "ERROR: " s = true ∨
      ∃ cid info vids reqs, metaLookup cid = .ok (some info) ∧
        uploadsLoop pages det maxV fuel 0 [] = some (.ok (vids, reqs)) ∧
        s = renderChannelResult cid info orderArg (sortVideos orderArg vids) maxV := by
    intro channelId orderArg maxV metaLookup pages det fuel s h
    unfold channel_videos_with_id at h
    cases hmeta : metaLookup channelId with
    | error e =>
      rw [hmeta] at h
      have hs : "ERROR: " ++ e = s := by simpa using h
      subst hs
      exact Or.inl (strStarts_append_self _ _)
    | ok oinfo =>
      rw [hmeta] at h
      cases oinfo with
      | none =>
        have hs : "ERROR: Channel not found" = s := by simpa using h
        subst hs
        exact Or.inl (by decide)
      | some info =>
        dsimp only at h
        cases hloop : uploadsLoop pages det maxV fuel 0 [] with
        | none =>
          rw [hloop] at h
          cases h
        | some r =>
          rw [hloop] at h
          cases r with
          | error e =>
            have hs : "ERROR: " ++ e = s := by simpa using h
            subst hs
            exact Or.inl (strStarts_append_self _ _)
          | ok p =>
            obtain ⟨vids, reqs⟩ := p
            have hs : renderChannelResult channelId info orderArg
                (sortVideos orderArg vids) maxV = s := by simpa using h
            subst hs
            exact Or.inr ⟨channelId, info, vids, reqs, hmeta, rfl, rfl⟩
  refine ⟨?_, ?_, ?_, ?_, ?_, ?_⟩
  · intro cached argv env videoUrl orderArg maxC pages fuel s h
    unfold fetch_comments at h
    cases hkey : get_yt_api_key cached argv env with
    | error e =>
      rw [hkey] at h
      have hs : "ERROR: " ++ e = s := by simpa using h
      subst hs
      exact Or.inl (strStarts_append_self _ _)
    | ok kp =>
      rw [hkey] at h
      dsimp only at h
      by_cases hvid : (extract_video_id videoUrl == "") = true
      · rw [if_pos hvid] at h
        have hs : "ERROR: Cannot parse video ID from URL." = s := by simpa using h
        subst hs
        exact Or.inl (by decide)
      · rw [if_neg hvid] at h
        cases hloop : commentsLoop pages maxC fuel 0 [] with
        | none =>
          rw [hloop] at h
          cases h
        | some r =>
          rw [hloop] at h
          cases r with
          | error e =>
            have hs : "ERROR: " ++ e = s := by simpa using h
            subst hs
            exact Or.inl (strStarts_append_self _ _)
          | ok p =>
            obtain ⟨items, reqs⟩ := p
            have hs : renderCommentsResult (extract_video_id videoUrl)
                (if orderArg == "relevance" || orderArg == "time" then orderArg
                  else "relevance") items = s := by simpa using h
            subst hs
            exact Or.inr ⟨items, reqs, rfl, rfl⟩
  · intro cached argv env channelInput orderArg maxV handleLookup metaLookup pages det
      fuel s h
    unfold get_channel_videos at h
    cases hkey : get_yt_api_key cached argv env with
    | error e =>
      rw [hkey] at h
      have hs : "ERROR: " ++ e = s := by simpa using h
      subst hs
      exact Or.inl (strStarts_append_self _ _)
    | ok kp =>
      rw [hkey] at h
      dsimp only at h
      cases hex : extract_channel_id channelInput with
      | none =>
        rw [hex] at h
        have hs : "ERROR: TypeError: cannot unpack non-iterable NoneType object" = s := by
          simpa using h
        subst hs
        exact Or.inl (by decide)
      | some pr =>
        rw [hex] at h
        obtain ⟨idType, ident⟩ := pr
        dsimp only at h
        by_cases ht : (idType == "username") = true
        · rw [if_pos ht] at h
          cases hhl : handleLookup ident with
          | error e =>
            rw [hhl] at h
            have hs : "ERROR: " ++ e = s := by simpa using h
            subst hs
            exact Or.inl (strStarts_append_self _ _)
          | ok ids =>
            rw [hhl] at h
            cases ids with
            | nil =>
              have hs : "ERROR: Channel not found for username: " ++ ident = s := by
                simpa using h
              subst hs
              exact Or.inl (strStarts_error_of_lit
                "ERROR: Channel not found for username: " ident (by decide))
            | cons cid rest =>
              exact hwith cid orderArg maxV metaLookup pages det fuel s h
        · rw [if_neg ht] at h
          exact hwith ident orderArg maxV metaLookup pages det fuel s h
  · intro cached argv env videoUrl orderArg maxC pages fuel kp e hkey hvid hloop
    unfold fetch_comments
    rw [hkey]
    dsimp only
    rw [if_neg (by simp [hvid]), hloop]
  · intro cached argv env channelInput orderArg maxV handleLookup metaLookup pages det
      fuel kp cid info e hkey hex hmeta hloop
    unfold get_channel_videos
    rw [hkey, hex]
    dsimp only
    rw [if_neg (by decide)]
    unfold channel_videos_with_id
    rw [hmeta]
    dsimp only
    rw [hloop]
  · intro cached argv env query orderArg searchCall det
    unfold search_videos
    cases hkey : get_yt_api_key cached argv env with
    | error e => exact Or.inl (strStarts_append_self _ _)
    | ok kp =>
      cases hsc : searchCall with
      | error e => exact Or.inl (strStarts_append_self _ _)
      | ok ids =>
        dsimp only
        by_cases hids : ids.isEmpty = true
        · rw [if_pos hids]
          exact Or.inr (Or.inl rfl)
        · rw [if_neg hids]
          cases hdet : det ids with
          | error e => exact Or.inl (strStarts_append_self _ _)
          | ok raws => exact Or.inr (Or.inr ⟨ids, raws, rfl, hdet, rfl⟩)
  · intro cached argv env playlistUrl maxVideos plMeta pages det fuel s h
    unfold get_playlist_details at h
    cases hkey : get_yt_api_key cached argv env with
    | error e =>
      rw [hkey] at h
      have hs : "ERROR: " ++ e = s := by simpa using h
      subst hs
      exact Or.inl (strStarts_append_self _ _)
    | ok kp =>
      rw [hkey] at h
      dsimp only at h
      cases hmeta : plMeta (extract_playlist_id playlistUrl) with
      | error e =>
        rw [hmeta] at h
        have hs : "ERROR: " ++ e = s := by simpa using h
        subst hs
        exact Or.inl (strStarts_append_self _ _)
      | ok oinfo =>
        rw [hmeta] at h
        cases oinfo with
        | none =>
          have hs : "ERROR: Playlist not found" = s := by simpa using h
          subst hs
          exact Or.inl (by decide)
        | some info =>
          dsimp only at h
          cases hloop : uploadsLoop pages det maxVideos fuel 0 [] with
          | none =>
            rw [hloop] at h
            cases h
          | some r =>
            rw [hloop] at h
            cases r with
            | error e =>
              have hs : "ERROR: " ++ e = s := by simpa using h
              subst hs
              exact Or.inl (strStarts_append_self _ _)
            | ok p =>
              obtain ⟨vids, reqs⟩ := p
              have hs : renderPlaylistDetails (pack_playlist_details
                  (extract_playlist_id playlistUrl) info vids) = s := by simpa using h
              subst hs
              exact Or.inr ⟨info, vids, reqs, rfl, rfl, rfl⟩

/-- Upstream stream for the C2 witness: one good page, then HTTP 403. -/
def failSecondPages : Nat → Except String CommentsPage :=
  fun k => if k = 0 then .ok ⟨[smallThread], some "t"⟩
    else .error "HTTPStatusError: Client error '403 Forbidden'"

/-- Witness for C2: an upstream 403 on the second page makes the call
return only the error string — the three records of the first page are
discarded. -/
theorem C2_error_boundary_witness :
    fetch_comments (some "KEY") [] none "https://youtu.be/dQw4w9WgXcQ"
      "time" 10 failSecondPages 3 =
      some ("ERROR: " ++ "HTTPStatusError: Client error '403 Forbidden'") :=
  C2_error_boundary.2.2.1 (some "KEY") [] none "https://youtu.be/dQw4w9WgXcQ"
    "time" 10 failSecondPages 3 ("KEY", some "KEY")
    "HTTPStatusError: Client error '403 Forbidden'" rfl (by decide) rfl

/-- C9 counterexample: an upstream that forever returns cursor-bearing
pages with zero records makes both pagination loops run forever — no fuel
produces a result. -/
theorem C9_counterexample :
    (¬ ∃ fuel r, commentsLoop (fun _ => .ok ⟨[], some "t"⟩) 1 fuel 0 [] = some r) ∧
    (¬ ∃ fuel r, uploadsLoop (fun _ _ => .ok ⟨[], some "t"⟩) (fun _ _ => .ok [])
      1 fuel 0 [] = some r) := by
  constructor
  · rintro ⟨fuel, r, hr⟩
    have key : ∀ f k, commentsLoop (fun _ => .ok ⟨[], some "t"⟩) 1 f k [] = none := by
      intro f
      induction f with
      | zero => intro k; rfl
      | succ n ih =>
        intro k
        simpa [commentsLoop, addThreads] using ih (k + 1)
    rw [key fuel 0] at hr
    cases hr
  · rintro ⟨fuel, r, hr⟩
    have key : ∀ f k, uploadsLoop (fun _ _ => .ok ⟨[], some "t"⟩)
        (fun _ _ => .ok []) 1 f k [] = none := by
      intro f
      induction f with
      | zero => intro k; rfl
      | succ n ih =>
        intro k
        simpa [uploadsLoop] using ih (k + 1)
    rw [key fuel 0] at hr
    cases hr

/-- C9 (amended): a pagination loop, when it returns, exits exactly at the
cap or at a missing cursor; it terminates whenever every upstream page
contributes at least one record or some page fails or lacks a cursor — but
an infinite stream of cursor-bearing zero-record pages loops forever (see
the counterexample). -/
theorem C9_loop_termination :
    (∀ (pages : Nat → Except String CommentsPage) (maxC : Nat),
      ((∀ k pg, pages k = .ok pg →
          1 ≤ (pg.threads.map fun t => (flattenThread t).length).sum) ∨
        ∃ k0, pageStops pages k0) →
      ∃ fuel r, commentsLoop pages maxC fuel 0 [] = some r) ∧
    (∀ (pages : Nat → Nat → Except String PlaylistItemsPage)
      (det : Nat → List String → Except String (List RawVideo)) (maxV : Nat),
      ((∀ k m pg, pages k m = .ok pg → pg.videoIds ≠ []) ∧
        (∀ k ids raws, det k ids = .ok raws → raws ≠ []) ∨
        ∃ k0, ∀ m pg, pages k0 m = .ok pg → pg.nextPageToken = none) →
      ∃ fuel r, uploadsLoop pages det maxV fuel 0 [] = some r) ∧
    (∀ (pages : Nat → Except String CommentsPage) (maxC fuel k : Nat)
      (acc items : List CommentRecord) (reqs : Nat),
      commentsLoop pages maxC fuel k acc = some (.ok (items, reqs)) →
      maxC ≤ items.length ∨
        (k < reqs ∧ ∃ pg, pages (reqs - 1) = .ok pg ∧ pg.nextPageToken = none)) ∧
    (∀ (pages : Nat → Nat → Except String PlaylistItemsPage)
      (det : Nat → List String → Except String (List RawVideo))
      (maxV fuel k : Nat) (acc vids : List VideoRecord) (reqs : Nat),
      uploadsLoop pages det maxV fuel k acc = some (.ok (vids, reqs)) →
      maxV ≤ vids.length ∨
        (k < reqs ∧ ∃ m pg, pages (reqs - 1) m = .ok pg ∧
          pg.nextPageToken = none)) :=
  ⟨commentsLoop_terminates,
    uploadsLoop_terminates,
    fun pages maxC fuel k acc items reqs h =>
      commentsLoop_exit pages maxC fuel k acc items reqs h,
    fun pages det maxV fuel k acc vids reqs h =>
      uploadsLoop_exit pages det maxV fuel k acc vids reqs h⟩

/-- Witness for C9: termination holds on a stream whose first page has no
cursor, and the exit condition is observed on a concrete run. -/
theorem C9_loop_termination_witness :
    (∃ fuel r, commentsLoop smallThreadPages 5 fuel 0 [] = some r) ∧
    (5 ≤ smallThreadItems.length ∨
      (0 < 1 ∧ ∃ pg, smallThreadPages 0 = .ok pg ∧ pg.nextPageToken = none)) :=
  ⟨C9_loop_termination.1 smallThreadPages 5
      (Or.inr ⟨0, fun pg h => by cases h; rfl⟩),
    by
      have h := C9_loop_termination.2.2.1 smallThreadPages 5 2 0 []
        (addThreads 5 [] [smallThread]) 1 rfl
      rcases h with h | h
      · exact Or.inl (by simpa [smallThreadItems] using h)
      · exact Or.inr h⟩

end YT
